import Mathlib

/-!
Verification of the dependency-resolution engine of `honesty` (`honesty/deps.py`).

The Python sources are shallowly embedded as executable Lean definitions:

* versions and specifiers follow the behaviour of the `packaging` library as
  exercised by `deps.py` (`SpecifierSet`, `Version`, `Marker`); the modelled
  subset excludes PEP 440 local version labels, `==`/`!=` wildcard clauses and
  legacy (non-PEP-440) version strings, none of which are reached by the
  properties verified here (the code itself notes that legacy versions are
  discarded before `_find_compatible_version` runs);
* strings are processed as `List Char` so that every definition evaluates
  inside the kernel; `String` appears only at the outer interfaces;
* network and archive collaborators (`parse_index`, `Cache.fetch`, wheel and
  sdist payloads, the HTTP object behind `SeekableHttpFile`) are parameters of
  the model, as the specification treats them as external collaborators;
* Python exceptions become an explicit error type; `DepWalker.walk` is run with
  explicit fuel since the claims under study are invariants and safety
  properties, not termination.
-/

/-- Typed failures of the engine.  Each constructor corresponds to one of the
exceptions `deps.py` (or the `packaging` calls it makes) can raise. -/
inductive DepsError where
  /-- `ValueError("No operator match in ...")` from `parse_constraints`. -/
  | malformedRequirement : String → DepsError
  /-- `packaging.specifiers.InvalidSpecifier` (unrecognised operator or operand). -/
  | invalidSpecifier : String → DepsError
  /-- `packaging.version.InvalidVersion` (and the modelled stand-in for legacy versions). -/
  | invalidVersion : String → DepsError
  /-- `packaging.markers.InvalidMarker` (marker text fails to parse). -/
  | invalidMarker : String → DepsError
  /-- `packaging.markers.UndefinedEnvironmentName`. -/
  | undefinedEnvName : String → DepsError
  /-- `packaging.markers.UndefinedComparison` (marker operator with no fallback). -/
  | undefinedComparison : DepsError
  /-- Python `TypeError` raised while evaluating a marker comparison. -/
  | typeError : DepsError
  /-- `ValueError(f"{package.name} incompatible with {python_version}")`. -/
  | incompatibleRuntime : String → DepsError
  /-- `ValueError(f"{package.name} has no ... compatible release with constraint ...")`. -/
  | noMatchingVersion : String → DepsError
  /-- `ValueError(f"No whl/sdist for {package.name}")`. -/
  | noArtifact : String → DepsError
  /-- `ValueError("Truncated read", len(data), n)` from `SeekableHttpFile.read`. -/
  | truncatedRead : Int → Int → DepsError
  /-- Failure of the final `assert self.root is not None` in `DepWalker.walk`. -/
  | assertionError : DepsError
  /-- The fuel bound of the modelled walk loop ran out with work remaining. -/
  | outOfFuel : DepsError
  /-- A failure inside an external collaborator (network, cache, archive). -/
  | externalError : String → DepsError
  deriving DecidableEq

instance {ε α : Type} [DecidableEq ε] [DecidableEq α] : DecidableEq (Except ε α) := fun a b =>
  match a, b with
  | .ok x, .ok y =>
      if h : x = y then .isTrue (by simp [h]) else .isFalse (by simp [h])
  | .ok _, .error _ => .isFalse (by simp)
  | .error _, .ok _ => .isFalse (by simp)
  | .error x, .error y =>
      if h : x = y then .isTrue (by simp [h]) else .isFalse (by simp [h])

/-! ### Character-list utilities

`deps.py` manipulates Python strings; the model works on `List Char` so that
everything reduces in the kernel. -/

/-- Python `str.isdigit` for ASCII digits as used by version parsing. -/
def isDigitCh (c : Char) : Bool := '0' ≤ c && c ≤ '9'

/-- Decimal digits to a natural number. -/
def digitsToNat (ds : List Char) : Nat := ds.foldl (fun a c => a * 10 + (c.toNat - 48)) 0

/-- Render a natural number as decimal digits. -/
def natToCharsAux : Nat → Nat → List Char
  | 0, _ => []
  | f + 1, n => if n < 10 then [Char.ofNat (48 + n)] else natToCharsAux f (n / 10) ++ [Char.ofNat (48 + n % 10)]

def natToChars (n : Nat) : List Char := natToCharsAux (n + 1) n

/-- Python's notion of whitespace for `str.strip` (ASCII subset). -/
def isSpaceCh (c : Char) : Bool := c = ' ' || c = '\t' || c = '\n' || c = '\r' || c = '\x0b' || c = '\x0c'

/-- Python `str.strip()`. -/
def pyStrip (l : List Char) : List Char :=
  ((l.dropWhile isSpaceCh).reverse.dropWhile isSpaceCh).reverse

/-- `needle` occurs at the start of `hay`. -/
def leadEq : List Char → List Char → Bool
  | [], _ => true
  | _ :: _, [] => false
  | a :: as, b :: bs => a = b && leadEq as bs

/-- Python `needle in hay` on strings (substring containment). -/
def subIn (needle : List Char) : List Char → Bool
  | [] => leadEq needle []
  | c :: rest => leadEq needle (c :: rest) || subIn needle rest

/-- Python `s.split(sep)` for a one-character separator. -/
def splitOnCh (sep : Char) (l : List Char) : List (List Char) :=
  match l with
  | [] => [[]]
  | c :: rest =>
      let r := splitOnCh sep rest
      if c = sep then [] :: r
      else match r with
           | [] => [[c]]
           | h :: t => (c :: h) :: t

/-- Python `sep.join(parts)` for a one-character separator. -/
def joinCh (sep : Char) : List (List Char) → List Char
  | [] => []
  | [p] => p
  | p :: rest => p ++ sep :: joinCh sep rest

/-! ### PEP 440 versions (`packaging.version.Version`, modelled subset)

Epoch, release segments, pre-release, post-release and dev segments; no local
version labels.  Parsing follows the PEP 440 grammar as implemented by
`packaging`, case-insensitively and with the usual separator and spelling
normalisations (`alpha`→`a`, `c`/`pre`/`preview`→`rc`, `rev`/`r`→`post`). -/

structure PyVersion where
  epoch : Nat
  release : List Nat
  /-- pre-release phase (0 = `a`, 1 = `b`, 2 = `rc`) and number. -/
  pre : Option (Nat × Nat)
  post : Option Nat
  dev : Option Nat
  deriving DecidableEq

def PyVersion.isPrerelease (v : PyVersion) : Bool := v.dev.isSome || v.pre.isSome

def PyVersion.isPostrelease (v : PyVersion) : Bool := v.post.isSome

/-- Consume one optional `-`/`_`/`.` separator. -/
def dropSep : List Char → List Char
  | c :: rest => if c = '-' || c = '_' || c = '.' then rest else c :: rest
  | [] => []

/-- Match one of `tags` (given longest-first) at the head of the input,
returning the associated value and the rest. -/
def matchTags (tags : List (List Char × Nat)) (cs : List Char) : Option (Nat × List Char) :=
  match tags with
  | [] => none
  | (t, v) :: rest => if leadEq t cs then some (v, cs.drop t.length) else matchTags rest cs

/-- Further `.N` release segments. -/
def releaseRest : Nat → List Char → List Nat × List Char
  | 0, cs => ([], cs)
  | f + 1, cs =>
      match cs with
      | '.' :: rest =>
          let ds := rest.takeWhile isDigitCh
          if ds.isEmpty then ([], '.' :: rest)
          else
            let (more, rem) := releaseRest f (rest.dropWhile isDigitCh)
            (digitsToNat ds :: more, rem)
      | other => ([], other)

/-- Optional `tag[sep][N]` suffix segment (shared by pre/post/dev parsing). -/
def parseTagNum (tags : List (List Char × Nat)) (cs : List Char) : Option (Nat × Nat × List Char) :=
  match matchTags tags (dropSep cs) with
  | none => none
  | some (v, rest) =>
      let rest := dropSep rest
      let ds := rest.takeWhile isDigitCh
      some (v, digitsToNat ds, rest.dropWhile isDigitCh)

def preTags : List (List Char × Nat) :=
  [("alpha".toList, 0), ("beta".toList, 1), ("preview".toList, 2), ("pre".toList, 2),
   ("rc".toList, 2), ("a".toList, 0), ("b".toList, 1), ("c".toList, 2)]

def postTags : List (List Char × Nat) :=
  [("post".toList, 0), ("rev".toList, 0), ("r".toList, 0)]

def devTags : List (List Char × Nat) := [("dev".toList, 0)]

/-- Parse a PEP 440 version string (modelled subset: no local labels, no
wildcards).  Returns `none` where `packaging.version.Version` raises
`InvalidVersion`. -/
def parseVersionChars (s : List Char) : Option PyVersion :=
  let cs := (pyStrip s).map Char.toLower
  let cs := match cs with
            | 'v' :: rest => rest
            | other => other
  let d1 := cs.takeWhile isDigitCh
  if d1.isEmpty then none
  else
    let afterD1 := cs.dropWhile isDigitCh
    -- epoch `N!` or first release segment
    let (epoch, relFirst, rest) :=
      match afterD1 with
      | '!' :: rest2 =>
          let d2 := rest2.takeWhile isDigitCh
          (digitsToNat d1, d2, rest2.dropWhile isDigitCh)
      | other => (0, d1, other)
    if relFirst.isEmpty then none
    else
      let (relMore, rest) := releaseRest rest.length rest
      let (pre, rest) :=
        match parseTagNum preTags rest with
        | some (l, n, r) => (some (l, n), r)
        | none => (none, rest)
      let (post, rest) :=
        match rest with
        | '-' :: r2 =>
            -- the bare `-N` post-release spelling
            let ds := r2.takeWhile isDigitCh
            if ds.isEmpty then
              match parseTagNum postTags rest with
              | some (_, n, r) => (some n, r)
              | none => (none, rest)
            else (some (digitsToNat ds), r2.dropWhile isDigitCh)
        | _ =>
            match parseTagNum postTags rest with
            | some (_, n, r) => (some n, r)
            | none => (none, rest)
      let (dev, rest) :=
        match parseTagNum devTags rest with
        | some (_, n, r) => (some n, r)
        | none => (none, rest)
      if rest.isEmpty then
        some { epoch := epoch, release := digitsToNat relFirst :: relMore,
               pre := pre, post := post, dev := dev }
      else none

def parseVersion (s : String) : Option PyVersion := parseVersionChars s.toList

/-! ### Version ordering (`packaging.version._cmpkey`) -/

/-- The lexicographic comparison key: epoch, release with trailing zeros
stripped, then encoded pre/post/dev keys exactly as in `_cmpkey`
(pre: dev-only sorts first, no-pre sorts last; post: absent sorts first;
dev: absent sorts last). -/
abbrev VKey :=
  Nat ×ₗ (List Nat) ×ₗ Nat ×ₗ Nat ×ₗ Nat ×ₗ Nat ×ₗ Nat ×ₗ Nat ×ₗ Nat

def stripZeros (l : List Nat) : List Nat := (l.reverse.dropWhile (· = 0)).reverse

def vKey (v : PyVersion) : VKey :=
  let preK : Nat × Nat × Nat :=
    match v.pre with
    | some (l, n) => (1, l, n)
    | none => if v.post.isNone && v.dev.isSome then (0, 0, 0) else (2, 0, 0)
  let postK : Nat × Nat := match v.post with | some n => (1, n) | none => (0, 0)
  let devK : Nat × Nat := match v.dev with | some n => (0, n) | none => (1, 0)
  toLex (v.epoch, toLex (stripZeros v.release, toLex (preK.1, toLex (preK.2.1,
    toLex (preK.2.2, toLex (postK.1, toLex (postK.2, toLex (devK.1, devK.2))))))))

/-- Python `Version.__le__`. -/
def vle (a b : PyVersion) : Bool := decide (vKey a ≤ vKey b)

/-- Python `Version.__lt__`. -/
def vlt (a b : PyVersion) : Bool := decide (vKey a < vKey b)

/-- Python `Version.__eq__` (comparison-key equality, so `1.0 == 1.0.0`). -/
def veq (a b : PyVersion) : Bool := decide (vKey a = vKey b)

/-- `Version.base_version` equality (epoch and release only). -/
def baseEq (a b : PyVersion) : Bool :=
  a.epoch == b.epoch && stripZeros a.release == stripZeros b.release

/-- Canonical rendering, as `str(Version(...))` produces for the modelled
subset (used by the `===` arbitrary-equality operator). -/
def renderVersion (v : PyVersion) : List Char :=
  (if v.epoch = 0 then [] else natToChars v.epoch ++ ['!'])
  ++ joinCh '.' (v.release.map natToChars)
  ++ (match v.pre with
      | some (l, n) => (if l = 0 then ['a'] else if l = 1 then ['b'] else ['r', 'c']) ++ natToChars n
      | none => [])
  ++ (match v.post with
      | some n => '.' :: 'p' :: 'o' :: 's' :: 't' :: natToChars n
      | none => [])
  ++ (match v.dev with
      | some n => '.' :: 'd' :: 'e' :: 'v' :: natToChars n
      | none => [])

/-! ### Specifiers (`packaging.specifiers`, modelled subset)

The eight PEP 440 operators recognised by `packaging`'s `Specifier` class.
`deps.py` builds `SpecifierSet`s in `parse_constraints` (requirement clauses)
and `_find_compatible_version` (requires-python strings). -/

inductive SpecOp where
  | lt | gt | le | ge | eq | ne | compatible | arbitrary
  deriving DecidableEq

structure Specifier where
  op : SpecOp
  /-- stripped operand text. -/
  operand : List Char
  deriving DecidableEq

def opTable : List (List Char × SpecOp) :=
  [("===".toList, .arbitrary), ("==".toList, .eq), ("~=".toList, .compatible),
   ("!=".toList, .ne), ("<=".toList, .le), (">=".toList, .ge),
   ("<".toList, .lt), (">".toList, .gt)]

def findOp : List (List Char × SpecOp) → List Char → Option (SpecOp × List Char)
  | [], _ => none
  | (t, o) :: rest, cs => if leadEq t cs then some (o, cs.drop t.length) else findOp rest cs

/-- Parse one specifier clause, as `packaging.specifiers.Specifier.__init__`
does (`InvalidSpecifier` on anything unrecognised).  Modelled subset: the
wildcard forms `== X.*` / `!= X.*` are not modelled and are rejected here. -/
def parseSpecifier (s : List Char) : Except DepsError Specifier :=
  let t := pyStrip s
  match findOp opTable t with
  | none => .error (.invalidSpecifier (String.mk s))
  | some (o, rest) =>
      let operand := pyStrip rest
      let ok :=
        match o with
        | .arbitrary => !operand.isEmpty && operand.all (fun c => !isSpaceCh c)
        | .compatible =>
            match parseVersionChars operand with
            | some v => decide (2 ≤ v.release.length)
            | none => false
        | _ => (parseVersionChars operand).isSome
      if ok then .ok { op := o, operand := operand }
      else .error (.invalidSpecifier (String.mk s))

/-- `SpecifierSet(...)`: split on commas, strip, drop empty pieces, parse each
clause. -/
def parseSpecifierSet (s : List Char) : Except DepsError (List Specifier) :=
  ((splitOnCh ',' s).map pyStrip |>.filter (fun p => !p.isEmpty)).mapM parseSpecifier

def specVer (sp : Specifier) : Option PyVersion := parseVersionChars sp.operand

/-- The `Specifier.prereleases` property: `True` exactly when the operator is
one of `==`, `>=`, `<=`, `~=`, `!=` and the operand is a pre-release. -/
def specPrereleases (sp : Specifier) : Bool :=
  match sp.op with
  | .eq | .ge | .le | .compatible | .ne =>
      match specVer sp with
      | some v => v.isPrerelease
      | none => false
  | _ => false

def padTo (l : List Nat) (k : Nat) : List Nat := l ++ List.replicate (k - l.length) 0

/-- The per-operator comparison (`Specifier._compare_*`), without the
prerelease gating. -/
def specMatchOp (sp : Specifier) (v : PyVersion) : Bool :=
  match sp.op, parseVersionChars sp.operand with
  | .arbitrary, _ => renderVersion v == sp.operand.map Char.toLower
  | .eq, some sv => veq v sv
  | .ne, some sv => !veq v sv
  | .le, some sv => vle v sv
  | .ge, some sv => vle sv v
  | .lt, some sv => vlt v sv && !(!sv.isPrerelease && v.isPrerelease && baseEq v sv)
  | .gt, some sv => vlt sv v && !(!sv.isPostrelease && v.isPostrelease && baseEq v sv)
  | .compatible, some sv =>
      let k := sv.release.length - 1
      vle sv v && v.epoch == sv.epoch && (padTo v.release k).take k == sv.release.take k
  | _, none => false

/-- `Specifier.contains(v, prereleases=b)`. -/
def specContainsKw (sp : Specifier) (prereleases : Bool) (v : PyVersion) : Bool :=
  if v.isPrerelease && !prereleases then false else specMatchOp sp v

/-- `Specifier.contains(v)` with the default `prereleases=None`. -/
def specContainsDefault (sp : Specifier) (v : PyVersion) : Bool :=
  specContainsKw sp (specPrereleases sp) v

/-- `SpecifierSet.__contains__` (used for `python_version in requires_python`):
prereleases are admitted only when some clause's operand is a pre-release, and
every clause must match. -/
def specSetContains (specs : List Specifier) (v : PyVersion) : Bool :=
  let pre := specs.any specPrereleases
  if v.isPrerelease && !pre then false
  else specs.all (fun s => specContainsKw s pre v)

/-- `Specifier.filter(items, prereleases=pre)`: pre-releases that match but are
not admitted are held back and yielded only when nothing else matched. -/
def specFilter (sp : Specifier) (pre : Bool) (items : List (List Char × PyVersion)) :
    List (List Char × PyVersion) :=
  let matched := items.filter (fun p => specContainsKw sp pre p.2)
  let yielded := matched.filter (fun p => !(p.2.isPrerelease && !(pre || specPrereleases sp)))
  let found := matched.filter (fun p => p.2.isPrerelease && !(pre || specPrereleases sp))
  if yielded.isEmpty && !found.isEmpty then found else yielded

/-- Parse every candidate string to a version, failing at the first
non-PEP-440 item (the modelled stand-in for the legacy-version behaviour, see
the header comment). -/
def parseAll : List String → Except DepsError (List (List Char × PyVersion))
  | [] => .ok []
  | s :: rest =>
      match parseVersionChars s.toList with
      | some v => do
          let tail ← parseAll rest
          .ok ((s.toList, v) :: tail)
      | none => .error (.invalidVersion s)

/-- `SpecifierSet.filter(items)` with the default `prereleases=None`.  With
clauses present, each clause filters in turn with the set-level prerelease
flag; with no clauses, non-prereleases are kept, falling back to the
pre-releases when there are none. -/
def specSetFilter (specs : List Specifier) (items : List String) :
    Except DepsError (List String) := do
  let parsed ← parseAll items
  if specs.isEmpty then
    let nonPre := parsed.filter (fun p => !p.2.isPrerelease)
    pure ((if nonPre.isEmpty then parsed else nonPre).map (fun p => String.mk p.1))
  else
    let pre := specs.any specPrereleases
    pure ((specs.foldl (fun acc sp => specFilter sp pre acc) parsed).map (fun p => String.mk p.1))

/-! ### Release data (external collaborator)

Modelled from the spec: §6 "Package Index Client" — `honesty.releases` is not
part of the verified sources; `Package`, `ReleaseInfo` ("file list with, per
file, fileType ∈ \x7bsdist, wheel\x7d, url, size?, requiresPython?") and the
optional pre-populated dependency list (§9, `PresetDependencies | None`) are
reconstructed from the spec's description and `deps.py`'s usage. -/

inductive FileType where
  | sdist | bdist_wheel
  deriving DecidableEq

structure FileEntry where
  file_type : FileType
  url : String
  size : Option Nat
  requires_python : Option String
  deriving DecidableEq

structure PackageRelease where
  version : String
  files : List FileEntry
  requires : Option (List String)
  deriving DecidableEq

structure Package where
  name : String
  releases : List (String × PackageRelease)
  deriving DecidableEq

/-- The first file entry of a release carrying a (truthy) requires-python
string, as in the loop of `_find_compatible_version`. -/
def firstRequiresPython : List FileEntry → Option String
  | [] => none
  | fe :: rest =>
      match fe.requires_python with
      | some s => if s.toList.isEmpty then firstRequiresPython rest else some s
      | none => firstRequiresPython rest

/-- The requires-python pass of `_find_compatible_version`: keep each release
whose first declared requires-python constraint is absent, empty, or satisfied
by the target runtime version. -/
def candidateFilter (pv : PyVersion) : List (String × PackageRelease) → Except DepsError (List String)
  | [] => .ok []
  | (k, rel) :: rest => do
      let keep ←
        match firstRequiresPython rel.files with
        | none => pure true
        | some rp => do
            let specs ← parseSpecifierSet rp.toList
            pure (specs.isEmpty || specSetContains specs pv)
      let tail ← candidateFilter pv rest
      pure (if keep then k :: tail else tail)

/-! ### Version selection (`_find_compatible_version`) -/

def vKeyBot : VKey := vKey ⟨0, [], none, none, none⟩

/-- The sort key `sorted(possible, key=Version)` uses; the code only sorts
lists whose members are valid versions, so the default is never compared. -/
def verKeyD (s : String) : VKey :=
  match parseVersion s with
  | some v => vKey v
  | none => vKeyBot

def strVerLe (a b : String) : Prop := verKeyD a ≤ verKeyD b

instance : DecidableRel strVerLe := fun a b => inferInstanceAs (Decidable (verKeyD a ≤ verKeyD b))

instance : IsTotal String strVerLe := ⟨fun _ _ => le_total _ _⟩

instance : IsTrans String strVerLe := ⟨fun _ _ _ => le_trans⟩

/-- `_find_compatible_version(package, specifiers, python_version)`:
requires-python filtering (else `IncompatibleRuntime`), specifier filtering
(else `NoMatchingVersion`), then the maximum under version order via a stable
sort, as `sorted(possible, key=Version)[-1]`. -/
def find_compatible_version (package : Package) (specifiers : List Specifier)
    (python_version : PyVersion) : Except DepsError String := do
  let possible ← candidateFilter python_version package.releases
  if possible.isEmpty then .error (.incompatibleRuntime package.name)
  else do
    let narrowed ← specSetFilter specifiers possible
    if narrowed.isEmpty then .error (.noMatchingVersion package.name)
    else
      match (List.insertionSort strVerLe narrowed).getLast? with
      | some v => pure v
      | none => .error (.noMatchingVersion package.name)

/-! ### Requirement parsing (`parse_constraints` and `LINE_RE`)

`LINE_RE = ^([\w.-]+)(?:\[([\w,]+)\])?\s*(?:\(?(.*?)\)?)?\s*(;.*)?$`, applied
to the stripped line.  The translation below reproduces the regex's
backtracking outcome directly: greedy name, optional bracketed extras (only
when they fit the `[\w,]+` shape, otherwise the bracket text falls through to
the constraint part), optional whitespace, an optional opening parenthesis,
then the lazily-matched constraint text, which ends before an optional `)`,
trailing whitespace and an optional `;`-marker tail.  (Lines with interior
newlines, which the regex would reject, are outside the modelled subset.) -/

def isWordCh (c : Char) : Bool := c.isAlphanum || c = '_' || c = '.' || c = '-'

def isExtraCh (c : Char) : Bool := c.isAlphanum || c = '_' || c = ','

structure Constraint where
  name : String
  extra : Option String
  specifiers : List Specifier
  /-- retained verbatim; starts with `;` when present. -/
  markers : Option String
  deriving DecidableEq

def splitAtFirst (c : Char) : List Char → (List Char × List Char)
  | [] => ([], [])
  | x :: rest =>
      if x = c then ([], x :: rest)
      else
        let (a, b) := splitAtFirst c rest
        (x :: a, b)

def stripTrailSpaces (l : List Char) : List Char := (l.reverse.dropWhile isSpaceCh).reverse

def parse_constraints (line : String) : Except DepsError Constraint := do
  let cs := pyStrip line.toList
  let name := cs.takeWhile isWordCh
  if name.isEmpty then .error (.malformedRequirement (String.mk (pyStrip line.toList)))
  else
    let rest := cs.dropWhile isWordCh
    let (extra, rest) :=
      match rest with
      | '[' :: r2 =>
          let inner := r2.takeWhile isExtraCh
          let after := r2.dropWhile isExtraCh
          match after with
          | ']' :: r3 => if inner.isEmpty then (none, rest) else (some inner, r3)
          | _ => (none, rest)
      | _ => (none, rest)
    let rest := rest.dropWhile isSpaceCh
    let rest :=
      match rest with
      | '(' :: r2 => r2
      | other => other
    let (preSemi, markersPart) := splitAtFirst ';' rest
    let pre := stripTrailSpaces preSemi
    let constraintStr :=
      match pre.getLast? with
      | some ')' => pre.dropLast
      | _ => pre
    let specifiers ← parseSpecifierSet constraintStr
    pure { name := String.mk name, extra := extra.map String.mk,
           specifiers := specifiers,
           markers := if markersPart.isEmpty then none else some (String.mk markersPart) }

/-- `str(Specifier)`: operator immediately followed by the operand. -/
def renderSpecifier (sp : Specifier) : List Char :=
  (match sp.op with
   | .arbitrary => "===".toList
   | .eq => "==".toList
   | .compatible => "~=".toList
   | .ne => "!=".toList
   | .le => "<=".toList
   | .ge => ">=".toList
   | .lt => "<".toList
   | .gt => ">".toList) ++ sp.operand

/-- `str(SpecifierSet)`: clause renderings sorted as Python strings, joined
with commas. -/
def renderSpecifierSet (specs : List Specifier) : String :=
  String.mk (joinCh ','
    (List.insertionSort (fun a b : List Char => a ≤ b) (specs.map renderSpecifier)))

/-! ### Environment model and marker evaluation (`packaging.markers` +
`DepWalker._do_markers_match` + the `Extras` helper class)

The marker grammar is the `packaging` one: comparisons between environment
variables and quoted strings, combined with `and` / `or` / parentheses,
`and` binding tighter.  Evaluation is eager (the Python code materialises every
comparison result before combining), and `_eval_op` first tries to interpret
`op + rhs` as a PEP 440 specifier, falling back to plain string/object
comparison operators. -/

structure EnvironmentMarkers where
  os_name : String := "posix"
  sys_platform : String := "linux"
  platform_machine : String := "x86_64"
  platform_python_implementation : String := "CPython"
  platform_release : Option String := none
  platform_system : String := "Linux"
  platform_version : Option String := none
  python_version : Option String := none
  python_full_version : Option String := none
  implementation_name : String := "cpython"
  extra : Option String := none
  deriving DecidableEq

/-- A value in the evaluation environment: a Python string, `None`, or the
`Extras` wrapper object (whose `__eq__` tests membership of the other operand
in the wrapped set). -/
inductive MVal where
  | str : List Char → MVal
  | noneV : MVal
  | extrasV : List String → MVal
  deriving DecidableEq

/-- The environment `_do_markers_match` passes to `Marker.evaluate`:
`dict(**asdict(self.markers), extras=Extras(extras))` merged over
`default_environment()`.  Note the `Extras` object is bound to the key
`"extras"`, while the marker variable is spelled `extra`, which resolves to
`asdict`'s `extra` field (always `None` in the walker).
`implementation_version` comes from `default_environment()` and is a model
parameter. -/
def markerEnv (em : EnvironmentMarkers) (implVersion : String) (extras : List String)
    (name : String) : Option MVal :=
  if name = "os_name" then some (.str em.os_name.toList)
  else if name = "sys_platform" then some (.str em.sys_platform.toList)
  else if name = "platform_machine" then some (.str em.platform_machine.toList)
  else if name = "platform_python_implementation" then
    some (.str em.platform_python_implementation.toList)
  else if name = "platform_release" then
    some (match em.platform_release with | some s => .str s.toList | none => .noneV)
  else if name = "platform_system" then some (.str em.platform_system.toList)
  else if name = "platform_version" then
    some (match em.platform_version with | some s => .str s.toList | none => .noneV)
  else if name = "python_version" then
    some (match em.python_version with | some s => .str s.toList | none => .noneV)
  else if name = "python_full_version" then
    some (match em.python_full_version with | some s => .str s.toList | none => .noneV)
  else if name = "implementation_name" then some (.str em.implementation_name.toList)
  else if name = "implementation_version" then some (.str implVersion.toList)
  else if name = "extra" then
    some (match em.extra with | some s => .str s.toList | none => .noneV)
  else if name = "extras" then some (.extrasV extras)
  else none

inductive MTok where
  | lp | rp | andK | orK | inK | notK
  | opT : SpecOp → MTok
  | lit : List Char → MTok
  | ident : List Char → MTok
  deriving DecidableEq

def tokenize : Nat → List Char → Except DepsError (List MTok)
  | 0, cs => .error (.invalidMarker (String.mk cs))
  | _ + 1, [] => .ok []
  | f + 1, c :: rest =>
      if isSpaceCh c then tokenize f rest
      else if c = '(' then (MTok.lp :: ·) <$> tokenize f rest
      else if c = ')' then (MTok.rp :: ·) <$> tokenize f rest
      else if c = '\'' || c = '"' then
        let s := rest.takeWhile (· ≠ c)
        match rest.dropWhile (· ≠ c) with
        | _ :: r2 => (MTok.lit s :: ·) <$> tokenize f r2
        | [] => .error (.invalidMarker (String.mk (c :: rest)))
      else
        match findOp opTable (c :: rest) with
        | some (o, r2) => (MTok.opT o :: ·) <$> tokenize f r2
        | none =>
            if c.isAlpha || c = '_' then
              let w := (c :: rest).takeWhile (fun ch => ch.isAlphanum || ch = '_' || ch = '.')
              let r2 := (c :: rest).dropWhile (fun ch => ch.isAlphanum || ch = '_' || ch = '.')
              let t :=
                if w = "and".toList then MTok.andK
                else if w = "or".toList then MTok.orK
                else if w = "in".toList then MTok.inK
                else if w = "not".toList then MTok.notK
                else MTok.ident w
              (t :: ·) <$> tokenize f r2
            else .error (.invalidMarker (String.mk (c :: rest)))

inductive MOperand where
  | var : String → MOperand
  | val : List Char → MOperand
  deriving DecidableEq

inductive MOp where
  | sym : SpecOp → MOp
  | inOp : MOp
  | notInOp : MOp
  deriving DecidableEq

inductive MarkerAst where
  | comp : MOperand → MOp → MOperand → MarkerAst
  | conj : MarkerAst → MarkerAst → MarkerAst
  | disj : MarkerAst → MarkerAst → MarkerAst
  deriving DecidableEq

/-- The marker variables `packaging`'s grammar accepts (plain spellings). -/
def markerVars : List String :=
  ["os_name", "sys_platform", "platform_machine", "platform_python_implementation",
   "platform_release", "platform_system", "platform_version", "python_version",
   "python_full_version", "implementation_name", "implementation_version", "extra"]

def parseOperandTok : MTok → Option MOperand
  | .lit s => some (.val s)
  | .ident w => if markerVars.contains (String.mk w) then some (.var (String.mk w)) else none
  | _ => none

/-- Recursive-descent marker parser; `lvl` 2/1/0 are the `or`/`and`/atom
levels.  The fuel argument only bounds nesting and is always ample. -/
def parseM : Nat → Nat → List MTok → Except DepsError (MarkerAst × List MTok)
  | 0, _, ts => .error (.invalidMarker (toString ts.length))
  | f + 1, lvl, ts =>
      if lvl = 2 then do
        let (a, rest) ← parseM f 1 ts
        match rest with
        | .orK :: r2 => do
            let (b, rest') ← parseM f 2 r2
            .ok (.disj a b, rest')
        | _ => .ok (a, rest)
      else if lvl = 1 then do
        let (a, rest) ← parseM f 0 ts
        match rest with
        | .andK :: r2 => do
            let (b, rest') ← parseM f 1 r2
            .ok (.conj a b, rest')
        | _ => .ok (a, rest)
      else
        match ts with
        | .lp :: rest => do
            let (e, rest') ← parseM f 2 rest
            match rest' with
            | .rp :: r2 => .ok (e, r2)
            | _ => .error (.invalidMarker "unbalanced")
        | t1 :: rest1 =>
            match parseOperandTok t1 with
            | none => .error (.invalidMarker "operand")
            | some lhs =>
                let opRest : Except DepsError (MOp × List MTok) :=
                  match rest1 with
                  | .opT o :: r => .ok (.sym o, r)
                  | .inK :: r => .ok (.inOp, r)
                  | .notK :: .inK :: r => .ok (.notInOp, r)
                  | _ => .error (.invalidMarker "operator")
                match opRest with
                | .error e => .error e
                | .ok (op, rest2) =>
                    match rest2 with
                    | t2 :: r3 =>
                        match parseOperandTok t2 with
                        | some rhs => .ok (.comp lhs op rhs, r3)
                        | none => .error (.invalidMarker "operand")
                    | [] => .error (.invalidMarker "operand")
        | [] => .error (.invalidMarker "empty")

/-- `Marker(text)`: tokenize and parse, `InvalidMarker` on failure. -/
def parseMarkerChars (cs : List Char) : Except DepsError MarkerAst := do
  let ts ← tokenize (cs.length + 1) cs
  let (ast, rest) ← parseM (3 * ts.length + 3) 2 ts
  if rest.isEmpty then .ok ast else .error (.invalidMarker (String.mk cs))

def opChars (o : SpecOp) : List Char :=
  match o with
  | .arbitrary => "===".toList
  | .eq => "==".toList
  | .compatible => "~=".toList
  | .ne => "!=".toList
  | .le => "<=".toList
  | .ge => ">=".toList
  | .lt => "<".toList
  | .gt => ">".toList

/-- `packaging.markers._eval_op`: first try `Specifier(op + rhs)` and use
`spec.contains(lhs)`; otherwise fall back to the plain comparison operators.
A non-string right operand makes the `"".join` raise `TypeError` before the
fallback; `spec.contains` on a non-string or non-version left operand also
raises (modelled as `typeError` / `invalidVersion`). -/
def evalOp (lhs : MVal) (op : MOp) (rhs : MVal) : Except DepsError Bool :=
  match rhs with
  | .str rs =>
      let specTry : Option Specifier :=
        match op with
        | .sym o =>
            match parseSpecifier (opChars o ++ rs) with
            | .ok sp => some sp
            | .error _ => none
        | _ => none
      match specTry with
      | some sp =>
          match lhs with
          | .str ls =>
              match parseVersionChars ls with
              | some lv => .ok (specContainsDefault sp lv)
              | none => .error (.invalidVersion (String.mk ls))
          | _ => .error .typeError
      | none =>
          match op with
          | .sym .eq =>
              .ok (match lhs with
                   | .str ls => ls == rs
                   | .noneV => false
                   | .extrasV es => es.contains (String.mk rs))
          | .sym .ne =>
              .ok (match lhs with
                   | .str ls => ls != rs
                   | .noneV => true
                   | .extrasV es => !es.contains (String.mk rs))
          | .sym .lt =>
              match lhs with
              | .str ls => .ok (decide (ls < rs))
              | _ => .error .typeError
          | .sym .le =>
              match lhs with
              | .str ls => .ok (decide (ls ≤ rs))
              | _ => .error .typeError
          | .sym .gt =>
              match lhs with
              | .str ls => .ok (decide (rs < ls))
              | _ => .error .typeError
          | .sym .ge =>
              match lhs with
              | .str ls => .ok (decide (rs ≤ ls))
              | _ => .error .typeError
          | .inOp =>
              match lhs with
              | .str ls => .ok (subIn ls rs)
              | _ => .error .typeError
          | .notInOp =>
              match lhs with
              | .str ls => .ok (!subIn ls rs)
              | _ => .error .typeError
          | .sym .compatible => .error .undefinedComparison
          | .sym .arbitrary => .error .undefinedComparison
  | _ => .error .typeError

def evalOperand (env : String → Option MVal) : MOperand → Except DepsError MVal
  | .var n =>
      match env n with
      | some v => .ok v
      | none => .error (.undefinedEnvName n)
  | .val s => .ok (.str s)

/-- Eager evaluation of a marker expression (as `_evaluate_markers` does:
every comparison is computed before `any`/`all` combine them). -/
def evalAst (env : String → Option MVal) : MarkerAst → Except DepsError Bool
  | .comp l op r => do
      let lv ← evalOperand env l
      let rv ← evalOperand env r
      evalOp lv op rv
  | .conj a b => do
      let x ← evalAst env a
      let y ← evalAst env b
      .ok (x && y)
  | .disj a b => do
      let x ← evalAst env a
      let y ← evalAst env b
      .ok (x || y)

/-- `DepWalker._do_markers_match(markers, extras)`: strip the leading `;`,
parse with `Marker`, evaluate against the environment dict described at
`markerEnv`. -/
def do_markers_match (em : EnvironmentMarkers) (implVersion : String)
    (markers : String) (extras : List String) : Except DepsError Bool := do
  let ast ← parseMarkerChars (markers.toList.drop 1)
  evalAst (markerEnv em implVersion extras) ast

/-! ### `convert_sdist_requires` -/

/-- Python `repr` of a short string: single quotes, double quotes when the
text contains a single quote and no double quote; quotes and backslashes are
escaped (modelled subset: no control-character escapes). -/
def escSQ : List Char → List Char
  | [] => []
  | c :: rest => if c = '\'' || c = '\\' then '\\' :: c :: escSQ rest else c :: escSQ rest

def pyReprStr (s : List Char) : List Char :=
  if s.contains '\'' && !s.contains '"' then '"' :: s ++ ['"']
  else '\'' :: escSQ s ++ ['\'']

/-- `line[:1] == "[" and line[-1:] == "]"`. -/
def isHeaderLine (l : List Char) : Bool := l.take 1 = ['['] && l.getLast? = some ']'

/-- The per-line loop of `convert_sdist_requires`, carrying the current
section's marker text (`None` before any header; possibly empty, and emitted
only when non-empty, mirroring Python truthiness). -/
def convertLines (current_markers : Option (List Char)) : List (List Char) → List (List Char)
  | [] => []
  | line :: rest =>
      let l := pyStrip line
      if l.isEmpty then convertLines current_markers rest
      else if isHeaderLine l then
        let cm := (l.drop 1).dropLast
        let cm :=
          if cm.contains ':' then
            let (extra, colonRest) := splitAtFirst ':' cm
            let markers := colonRest.drop 1
            if extra.isEmpty then markers
            else '(' :: markers ++ ')' :: " and extra == ".toList ++ pyReprStr extra
          else "extra == ".toList ++ pyReprStr cm
        convertLines (some cm) rest
      else
        match current_markers with
        | some m =>
            if m.isEmpty then l :: convertLines current_markers rest
            else (l ++ ';' :: ' ' :: m) :: convertLines current_markers rest
        | none => l :: convertLines current_markers rest

/-- `convert_sdist_requires(data)`.  (`str.splitlines` is modelled as
splitting on `\n`; `\r` remnants are removed by the per-line strip, so inputs
with `\n` / `\r\n` line endings behave identically.) -/
def convert_sdist_requires (data : String) : List String :=
  (convertLines none (splitOnCh '\n' data.toList)).map String.mk

/-! ### `SeekableHttpFile` (virtual range-read stream)

The remote HTTP object is modelled by its byte content; construction performs
the optimistic suffix-range request for the last 256,000 bytes and caches it,
learning the total length from the Content-Range header.  Error propagation
aborts the caller, so the state paired with an error is not observable (the
Python object would keep its advanced `pos`). -/

structure SeekableHttpFile where
  /-- bytes of the remote object the URL designates. -/
  content : List Nat
  pos : Int
  length : Int
  end_cache : List Nat
  end_cache_start : Int
  deriving DecidableEq

/-- `SeekableHttpFile.__init__`: one request with `Range: bytes=-256000`
(the server clamps a long suffix range to the whole object). -/
def seekableInit (content : List Nat) : SeekableHttpFile :=
  let optimistic : Nat := 256000
  let start := content.length - min optimistic content.length
  { content := content, pos := 0, length := (content.length : Int),
    end_cache := content.drop start, end_cache_start := (start : Int) }

/-- Python `l[a:b]` for `0 ≤ a` (negative bounds clamp to the ends). -/
def pySlice (l : List Nat) (a b : Int) : List Nat := (l.take b.toNat).drop a.toNat

def SeekableHttpFile.seek (f : SeekableHttpFile) (pos : Int) (whence : Nat) :
    Except DepsError SeekableHttpFile :=
  if whence = 0 then .ok { f with pos := pos }
  else if whence = 1 then .ok { f with pos := f.pos + pos }
  else if whence = 2 then .ok { f with pos := f.length + pos }
  else .error (.externalError "Invalid value for whence")

def SeekableHttpFile.tell (f : SeekableHttpFile) : Int := f.pos

def SeekableHttpFile.seekable (_ : SeekableHttpFile) : Bool := true

/-- `SeekableHttpFile.read(n)`: `-1` means to-end; zero is a no-op; if
`pos - end_cache_start ≥ 0` the answer is sliced from the in-memory tail cache
(with Python slice clamping, and no length check); otherwise a fresh range
request fetches exactly `[pos, pos+n)`, and a short response raises
`ValueError("Truncated read", ...)`.  A range request whose start lies outside
the object makes `urlopen` raise (modelled as `externalError`). -/
def SeekableHttpFile.read (f : SeekableHttpFile) (n0 : Int) :
    Except DepsError (SeekableHttpFile × List Nat) :=
  let n := if n0 = -1 then f.length - f.pos else n0
  if n = 0 then .ok (f, [])
  else
    let p := f.pos - f.end_cache_start
    if 0 ≤ p then
      .ok ({ f with pos := f.pos + n }, pySlice f.end_cache p (p + n))
    else
      if f.pos < 0 || f.length ≤ f.pos then .error (.externalError "HTTPError")
      else
        let data := pySlice f.content f.pos (f.pos + n)
        if (data.length : Int) ≠ n then .error (.truncatedRead data.length n)
        else .ok ({ f with pos := f.pos + n }, data)

/-! ### The dependency walker (`DepWalker`)

Python's graph of shared mutable `DepNode` objects is embedded arena-style
(§9 of the spec suggests exactly this for ownership-disciplined ports): nodes
live in a list, edges and the identity table hold indices.  External
collaborators (`parse_index`, the artifact cache, wheel/sdist metadata
readers) are oracle functions in `WalkEnv`. -/

structure DepEdge where
  /-- index of the target node in the arena (a shared reference in Python). -/
  target : Nat
  /-- `str(con.specifiers)`. -/
  constraints : String
  markers : Option String
  deriving DecidableEq

structure DepNode where
  name : String
  version : String
  deps : List DepEdge
  has_sdist : Bool
  has_bdist : Bool
  dep_extras : Option String
  done : Bool
  deriving DecidableEq

structure WalkEnv where
  /-- `parse_index(name, cache, use_json=True)` (external collaborator). -/
  index : String → Except DepsError Package
  /-- `read_metadata_remote_wheel(url)` (network + zip, external I/O). -/
  remoteWheelDeps : String → Except DepsError (Option (List String))
  /-- `read_metadata_wheel(cache.fetch(...))` (cache + local wheel parse). -/
  localWheelDeps : String → Except DepsError (Option (List String))
  /-- `read_metadata_sdist(cache.fetch(...))` (cache + archive + requires.txt). -/
  sdistDeps : String → Except DepsError (List String)
  markers : EnvironmentMarkers
  /-- `default_environment()`'s implementation_version on the host. -/
  implVersion : String
  /-- `Version(python_version)` computed in `DepWalker.__init__`. -/
  pythonVersion : PyVersion

/-- The `EnvironmentMarkers` built in `DepWalker.__init__`: `python_version`
is the first two dotted components, `python_full_version` the whole string. -/
def walkerMarkers (python_version : String) : EnvironmentMarkers :=
  { python_version := some (String.mk (joinCh '.' ((splitOnCh '.' python_version.toList).take 2))),
    python_full_version := some python_version }

structure WalkState where
  nodes : List DepNode
  /-- `self.nodes`: the `(name, version, extra)` → node lookup table. -/
  table : List ((String × String × Option String) × Nat)
  /-- `self.queue` of `(parent, requirement string)` pairs. -/
  queue : List (Option Nat × String)
  root : Option Nat
  deriving DecidableEq

def initWalkState (starting_package : String) : WalkState :=
  { nodes := [], table := [], queue := [(none, starting_package)], root := none }

/-- `_fetch_single_deps`: pre-populated `requires` wins; else the first wheel
(remote read when the size is unknown or over 20 MB, cached download
otherwise, both `or ()`-defaulted); else the first sdist; else
`ValueError("No whl/sdist ...")`. -/
def fetch_single_deps (env : WalkEnv) (package : Package) (v : String) :
    Except DepsError (List String) :=
  let rel := (package.releases.lookup v).getD ⟨v, [], none⟩
  match rel.requires with
  | some tmp => .ok tmp
  | none =>
      match rel.files.find? (fun fe => fe.file_type == .bdist_wheel) with
      | some fe =>
          if fe.size.isNone || fe.size.getD 0 > 20000000 then
            (env.remoteWheelDeps fe.url).map (fun o => o.getD [])
          else
            (env.localWheelDeps fe.url).map (fun o => o.getD [])
      | none =>
          match rel.files.find? (fun fe => fe.file_type == .sdist) with
          | some fe => env.sdistDeps fe.url
          | none => .error (.noArtifact package.name)

/-- The dependency-inclusion test of the inner loop of `walk` (substring
checks on the raw marker text, as in the Python). -/
def includeDep (depCon : Constraint) (conExtra : Option String) (include_extras : Bool) : Bool :=
  match depCon.markers with
  | none => true
  | some m =>
      !subIn "extra".toList m.toList
      || (match conExtra with
          | some e => !e.toList.isEmpty && subIn "extra".toList m.toList && subIn e.toList m.toList
          | none => false)
      || include_extras

def getOrCreateNode (st : WalkState) (key : String × String × Option String)
    (has_sdist has_bdist : Bool) : WalkState × Nat :=
  match st.table.lookup key with
  | some idx => (st, idx)
  | none =>
      let idx := st.nodes.length
      ({ st with
          nodes := st.nodes ++ [⟨key.1, key.2.1, [], has_sdist, has_bdist, key.2.2, false⟩],
          table := st.table ++ [(key, idx)] }, idx)

def appendEdgeAt (st : WalkState) (p : Nat) (e : DepEdge) : WalkState :=
  match st.nodes[p]? with
  | some nd => { st with nodes := st.nodes.set p { nd with deps := nd.deps ++ [e] } }
  | none => st

def markDoneAt (st : WalkState) (i : Nat) : WalkState :=
  match st.nodes[i]? with
  | some nd => { st with nodes := st.nodes.set i { nd with done := true } }
  | none => st

/-- The inner `for d in deps` loop of `walk`: parse each raw dependency and
enqueue `(node, d)` when the inclusion test passes. -/
def enqueueDeps (include_extras : Bool) (conExtra : Option String) (idx : Nat)
    (deps : List String) (st : WalkState) : Except DepsError WalkState :=
  deps.foldlM (fun st d => do
      let dep_con ← parse_constraints d
      if includeDep dep_con conExtra include_extras then
        pure { st with queue := st.queue ++ [(some idx, d)] }
      else pure st) st

/-- Step 6 of the loop: record the node as root (`parent is None`) or append
a `DepEdge` to the parent's `deps`. -/
def recordArrival (st : WalkState) (parent : Option Nat) (idx : Nat) (con : Constraint) :
    WalkState :=
  match parent with
  | none => { st with root := some idx }
  | some p => appendEdgeAt st p ⟨idx, renderSpecifierSet con.specifiers, con.markers⟩

/-- The body of a `walk` iteration once the package and version are resolved:
compute `has_sdist`/`has_bdist` from the chosen release's files, create or
fetch the node for `(name, version, extra)`, record root or parent edge, and
— unless the node is already `done` — fetch its raw dependencies, enqueue the
included ones, and mark it done. -/
def walkArrive (env : WalkEnv) (include_extras : Bool) (st : WalkState)
    (parent : Option Nat) (con : Constraint) (package : Package) (v : String) :
    Except DepsError WalkState :=
  match getOrCreateNode st (package.name, v, con.extra)
      (((package.releases.lookup v).getD ⟨v, [], none⟩).files.any
        (fun fe => fe.file_type == .sdist))
      (((package.releases.lookup v).getD ⟨v, [], none⟩).files.any
        (fun fe => fe.file_type == .bdist_wheel)) with
  | (st1, idx) =>
      if ((recordArrival st1 parent idx con).nodes[idx]?.map (fun nd => nd.done)).getD false then
        .ok (recordArrival st1 parent idx con)
      else do
        let deps ← fetch_single_deps env package v
        let st3 ← enqueueDeps include_extras con.extra idx deps (recordArrival st1 parent idx con)
        .ok (markDoneAt st3 idx)

/-- The body of a `walk` iteration after the marker gate: resolve a version
via the index and `_find_compatible_version`, then `walkArrive`. -/
def walkResolve (env : WalkEnv) (include_extras : Bool) (st : WalkState)
    (parent : Option Nat) (con : Constraint) : Except DepsError WalkState := do
  let package ← env.index con.name
  let v ← find_compatible_version package con.specifiers env.pythonVersion
  walkArrive env include_extras st parent con package v

/-- One iteration of the `while self.queue` body of `DepWalker.walk`, applied
to an already-dequeued `(parent, item)` pair: parse, skip when the marker
evaluates false (with no active extras), otherwise resolve. -/
def walkStep (env : WalkEnv) (include_extras : Bool) (st : WalkState)
    (parent : Option Nat) (item : String) : Except DepsError WalkState := do
  let con ← parse_constraints item
  match con.markers with
  | some m => do
      let b ← do_markers_match env.markers env.implVersion m []
      if !b then .ok st else walkResolve env include_extras st parent con
  | none => walkResolve env include_extras st parent con

/-- The `while self.queue` loop, with explicit fuel (the Python loop has no
bound; every claim below is an invariant or a safety property). -/
def walkLoop (env : WalkEnv) (include_extras : Bool) : Nat → WalkState → Except DepsError WalkState
  | 0, st => if st.queue.isEmpty then .ok st else .error .outOfFuel
  | fuel + 1, st =>
      match st.queue with
      | [] => .ok st
      | (parent, item) :: rest => do
          let st' ← walkStep env include_extras { st with queue := rest } parent item
          walkLoop env include_extras fuel st'

/-- `DepWalker.walk(include_extras)`: run the loop from the seeded queue, then
`assert self.root is not None` and return the root. -/
def walk (env : WalkEnv) (starting_package : String) (include_extras : Bool)
    (fuel : Nat) : Except DepsError (WalkState × Nat) := do
  let st ← walkLoop env include_extras fuel (initWalkState starting_package)
  match st.root with
  | some r => .ok (st, r)
  | none => .error .assertionError

/-! ### Concrete fixtures used by witnesses and counterexamples -/

/-- A release with no file entries (as in the repository's own test data). -/
def rel0 (v : String) : PackageRelease := ⟨v, [], none⟩

/-- The `FOO_PACKAGE` of the repository's tests: releases 1.0 and 2.0. -/
def fooPackage : Package := ⟨"foo", [("1.0", rel0 "1.0"), ("2.0", rel0 "2.0")]⟩

/-- A package whose only release is a pre-release. -/
def prePackage : Package := ⟨"pre-only", [("1.0a1", rel0 "1.0a1")]⟩

/-- `Version("3.6.0")`. -/
def pv36 : PyVersion := ⟨0, [3, 6, 0], none, none, none⟩

def pkgA : Package := ⟨"a", [("1.0", ⟨"1.0", [], some ["b (==1.0)"]⟩)]⟩

def pkgB : Package :=
  ⟨"b", [("1.0", ⟨"1.0", [], some ["c"]⟩), ("2.0", ⟨"2.0", [], some []⟩)]⟩

def pkgC : Package := ⟨"c", [("1.0", ⟨"1.0", [], some []⟩)]⟩

/-- The mocked `parse_index` of the repository's `DepWalkerTest`. -/
def idxABC : String → Except DepsError Package := fun n =>
  if n = "a" then .ok pkgA
  else if n = "b" then .ok pkgB
  else if n = "c" then .ok pkgC
  else .error (.externalError n)

/-- A walk environment mirroring `DepWalker("a", "3.6.0")` with the mocked
index; artifact fetches are never reached (every release pre-populates
`requires`). -/
def envABC : WalkEnv :=
  ⟨idxABC, fun u => .error (.externalError u), fun u => .error (.externalError u),
   fun u => .error (.externalError u), walkerMarkers "3.6.0", "3.6.0", pv36⟩

/-! ### Order and sorting helpers -/

theorem strVerLe_refl (s : String) : strVerLe s s := le_refl _

theorem getLastD_mem_of_ne_nil {α : Type} : ∀ (l : List α) (d : α), l ≠ [] → l.getLastD d ∈ l
  | [], _, h => absurd rfl h
  | [a], d, _ => by simp [List.getLastD]
  | a :: b :: t, d, _ => by
      have _ih := getLastD_mem_of_ne_nil (b :: t) a (by simp)
      simp [List.getLastD]

theorem getLast?_eq_getLastD {α : Type} : ∀ (l : List α) (d : α), l ≠ [] → l.getLast? = some (l.getLastD d)
  | [], _, h => absurd rfl h
  | [a], d, _ => by simp [List.getLastD]
  | a :: b :: t, d, _ => by
      have ih := getLast?_eq_getLastD (b :: t) a (by simp)
      simpa [List.getLastD] using ih

/-- In a list sorted by `strVerLe`, every member is `≤` the last element. -/
theorem sorted_getLastD_max :
    ∀ (l : List String) (d : String), l.Sorted strVerLe → ∀ x ∈ l, strVerLe x (l.getLastD d)
  | [], _, _, x, hx => absurd hx (by simp)
  | a :: t, d, hs, x, hx => by
      rcases List.sorted_cons.mp hs with ⟨ha, ht⟩
      rcases List.mem_cons.mp hx with rfl | hxt
      · cases t with
        | nil => simpa [List.getLastD] using strVerLe_refl x
        | cons b t' =>
            have hmem : (b :: t').getLastD x ∈ b :: t' :=
              getLastD_mem_of_ne_nil (b :: t') x (by simp)
            simpa [List.getLastD] using ha _ hmem
      · cases t with
        | nil => simp at hxt
        | cons b t' =>
            simpa [List.getLastD] using sorted_getLastD_max (b :: t') a ht x hxt

theorem exceptBindOk {ε α β : Type} (a : α) (f : α → Except ε β) :
    (Except.ok a : Except ε α) >>= f = f a := rfl

theorem exceptBindErr {ε α β : Type} (e : ε) (f : α → Except ε β) :
    (Except.error e : Except ε α) >>= f = .error e := rfl

theorem mapMLoopNil {ε α β : Type} (f : α → Except ε β) (acc : List β) :
    List.mapM.loop f [] acc = pure acc.reverse := rfl

theorem exceptPureBind {ε α β : Type} (a : α) (f : α → Except ε β) :
    (pure a : Except ε α) >>= f = f a := rfl

theorem specFilter_nil (sp : Specifier) (pre : Bool) : specFilter sp pre [] = [] := rfl

theorem foldl_specFilter_nil (pre : Bool) : ∀ (specs : List Specifier),
    specs.foldl (fun acc sp => specFilter sp pre acc) [] = []
  | [] => rfl
  | sp :: rest => by
      simpa [List.foldl, specFilter_nil] using foldl_specFilter_nil pre rest

theorem specSetFilter_nil (specs : List Specifier) : specSetFilter specs [] = .ok [] := by
  unfold specSetFilter
  cases specs with
  | nil => rfl
  | cons sp rest =>
      simp [parseAll, foldl_specFilter_nil, specFilter_nil]

/-- Evaluation of `_find_compatible_version` once both filter stages are
known and the narrowed set is non-empty: the result is the last element of the
stable sort by version key. -/
theorem find_cv_eval (package : Package) (specs : List Specifier) (pv : PyVersion)
    (possible narrowed : List String)
    (h1 : candidateFilter pv package.releases = .ok possible)
    (h2 : specSetFilter specs possible = .ok narrowed)
    (h3 : narrowed ≠ []) :
    find_compatible_version package specs pv =
      .ok ((List.insertionSort strVerLe narrowed).getLastD "") := by
  have hpos : possible ≠ [] := by
    intro he
    subst he
    rw [specSetFilter_nil] at h2
    simp at h2
    exact h3 h2
  have hsne : List.insertionSort strVerLe narrowed ≠ [] := by
    intro he
    have := (List.perm_insertionSort strVerLe narrowed).length_eq
    rw [he] at this
    exact h3 (List.eq_nil_of_length_eq_zero this.symm)
  unfold find_compatible_version
  rw [h1]
  cases possible with
  | nil => exact absurd rfl hpos
  | cons p ps =>
      rw [exceptBindOk]
      simp only [List.isEmpty_cons, Bool.false_eq_true, if_false]
      rw [h2, exceptBindOk]
      cases narrowed with
      | nil => exact absurd rfl h3
      | cons n ns =>
          simp only [List.isEmpty_cons, Bool.false_eq_true, if_false]
          rw [getLast?_eq_getLastD _ "" hsne]
          rfl

theorem sort_ne_nil (l : List String) (h : l ≠ []) :
    List.insertionSort strVerLe l ≠ [] := by
  intro he
  have hlen := (List.perm_insertionSort strVerLe l).length_eq
  rw [he] at hlen
  exact h (List.eq_nil_of_length_eq_zero hlen.symm)

theorem sort_getLastD_mem (l : List String) (h : l ≠ []) :
    (List.insertionSort strVerLe l).getLastD "" ∈ l :=
  (List.perm_insertionSort strVerLe l).subset
    (getLastD_mem_of_ne_nil _ "" (sort_ne_nil l h))

theorem sort_getLastD_max (l : List String) (x : String) (hx : x ∈ l) :
    strVerLe x ((List.insertionSort strVerLe l).getLastD "") :=
  sorted_getLastD_max _ "" (List.sorted_insertionSort strVerLe l) x
    ((List.perm_insertionSort strVerLe l).mem_iff.mpr hx)

/-- C1: whenever the narrowed candidate set is non-empty,
`_find_compatible_version` returns an element of it that is maximal under the
PEP 440 version order (the last element of the stable sort by version key) —
and on the releases `{1.0, 2.0}` of the spec's examples, `==1.0` gives `1.0`,
`>=2.0` gives `2.0`, `<=2.0` gives `2.0`, `!=2.0` gives `1.0`, and `<1.0`
fails with the `NoMatchingVersion` error. -/
theorem find_compatible_version_returns_max :
    (∀ (package : Package) (specifiers : List Specifier) (pv : PyVersion)
        (possible narrowed : List String),
        candidateFilter pv package.releases = .ok possible →
        specSetFilter specifiers possible = .ok narrowed →
        narrowed ≠ [] →
        find_compatible_version package specifiers pv =
            .ok ((List.insertionSort strVerLe narrowed).getLastD "")
          ∧ (List.insertionSort strVerLe narrowed).getLastD "" ∈ narrowed
          ∧ ∀ x ∈ narrowed,
              verKeyD x ≤ verKeyD ((List.insertionSort strVerLe narrowed).getLastD ""))
    ∧ find_compatible_version fooPackage [⟨.eq, "1.0".toList⟩] pv36 = .ok "1.0"
    ∧ find_compatible_version fooPackage [⟨.ge, "2.0".toList⟩] pv36 = .ok "2.0"
    ∧ find_compatible_version fooPackage [⟨.le, "2.0".toList⟩] pv36 = .ok "2.0"
    ∧ find_compatible_version fooPackage [⟨.ne, "2.0".toList⟩] pv36 = .ok "1.0"
    ∧ find_compatible_version fooPackage [⟨.lt, "1.0".toList⟩] pv36 =
        .error (.noMatchingVersion "foo") := by
  refine ⟨?_, by decide, by decide, by decide, by decide, by decide⟩
  intro package specifiers pv possible narrowed h1 h2 h3
  exact ⟨find_cv_eval package specifiers pv possible narrowed h1 h2 h3,
    sort_getLastD_mem narrowed h3, fun x hx => sort_getLastD_max narrowed x hx⟩

theorem find_compatible_version_returns_max_witness :
    find_compatible_version fooPackage [⟨.le, "2.0".toList⟩] pv36 = .ok "2.0" :=
  (find_compatible_version_returns_max.1 fooPackage [⟨.le, "2.0".toList⟩] pv36
      ["1.0", "2.0"] ["1.0", "2.0"] (by decide) (by decide) (by decide)).1

/-- The spec-side reading of §4.3 step 1: a release qualifies when its first
declared requires-python constraint is absent, empty, or satisfied by the
target runtime. -/
def releaseQualifies (pv : PyVersion) (rel : PackageRelease) : Prop :=
  match firstRequiresPython rel.files with
  | none => True
  | some rp => ∃ specs, parseSpecifierSet rp.toList = .ok specs ∧
      (specs.isEmpty = true ∨ specSetContains specs pv = true)

theorem candidateFilter_mem :
    ∀ (pv : PyVersion) (rels : List (String × PackageRelease)) (possible : List String),
      candidateFilter pv rels = .ok possible →
      ∀ k, k ∈ possible ↔ ∃ rel, (k, rel) ∈ rels ∧ releaseQualifies pv rel := by
  intro pv rels
  induction rels with
  | nil =>
      intro possible h k
      simp [candidateFilter] at h
      subst h
      simp
  | cons hd rest ih =>
      intro possible h k
      obtain ⟨k', rel'⟩ := hd
      rw [candidateFilter] at h
      cases hfr : firstRequiresPython rel'.files with
      | none =>
          simp only [hfr] at h
          rw [exceptPureBind] at h
          cases hrec : candidateFilter pv rest with
          | error e => rw [hrec, exceptBindErr] at h; cases h
          | ok tail =>
              rw [hrec, exceptBindOk] at h
              simp only [if_true] at h
              cases h
              constructor
              · intro hk
                rcases List.mem_cons.mp hk with rfl | hkt
                · exact ⟨rel', List.mem_cons_self _ _, by simp [releaseQualifies, hfr]⟩
                · rcases (ih tail hrec k).mp hkt with ⟨rel, hmem, hq⟩
                  exact ⟨rel, List.mem_cons_of_mem _ hmem, hq⟩
              · rintro ⟨rel, hmem, hq⟩
                rcases List.mem_cons.mp hmem with heq | hmem'
                · cases heq
                  exact List.mem_cons_self _ _
                · exact List.mem_cons_of_mem _ ((ih tail hrec k).mpr ⟨rel, hmem', hq⟩)
      | some rp =>
          simp only [hfr] at h
          cases hps : parseSpecifierSet rp.toList with
          | error e => rw [hps, exceptBindErr] at h; cases h
          | ok specs =>
              rw [hps, exceptBindOk, exceptPureBind] at h
              cases hrec : candidateFilter pv rest with
              | error e => rw [hrec, exceptBindErr] at h; cases h
              | ok tail =>
                  rw [hrec, exceptBindOk] at h
                  have hq' : releaseQualifies pv rel' ↔
                      (specs.isEmpty || specSetContains specs pv) = true := by
                    simp only [releaseQualifies, hfr]
                    constructor
                    · rintro ⟨specs2, hps2, hdisj⟩
                      rw [hps] at hps2
                      cases hps2
                      simpa [Bool.or_eq_true] using hdisj
                    · intro hb
                      exact ⟨specs, hps, by simpa [Bool.or_eq_true] using hb⟩
                  by_cases hkeep : (specs.isEmpty || specSetContains specs pv) = true
                  · rw [if_pos hkeep] at h
                    cases h
                    constructor
                    · intro hk
                      rcases List.mem_cons.mp hk with rfl | hkt
                      · exact ⟨rel', List.mem_cons_self _ _, hq'.mpr hkeep⟩
                      · rcases (ih tail hrec k).mp hkt with ⟨rel, hmem, hqq⟩
                        exact ⟨rel, List.mem_cons_of_mem _ hmem, hqq⟩
                    · rintro ⟨rel, hmem, hqq⟩
                      rcases List.mem_cons.mp hmem with heq | hmem'
                      · cases heq
                        exact List.mem_cons_self _ _
                      · exact List.mem_cons_of_mem _ ((ih tail hrec k).mpr ⟨rel, hmem', hqq⟩)
                  · rw [if_neg hkeep] at h
                    cases h
                    constructor
                    · intro hk
                      rcases (ih possible hrec k).mp hk with ⟨rel, hmem, hqq⟩
                      exact ⟨rel, List.mem_cons_of_mem _ hmem, hqq⟩
                    · rintro ⟨rel, hmem, hqq⟩
                      rcases List.mem_cons.mp hmem with heq | hmem'
                      · cases heq
                        exact absurd (hq'.mp hqq) hkeep
                      · exact (ih possible hrec k).mpr ⟨rel, hmem', hqq⟩

/-- C6: `_find_compatible_version` first computes the candidate set — every
release whose requires-python constraint, taken from its first file entry that
declares one, is absent or satisfied by the target runtime — and fails with
the `IncompatibleRuntime` error when that set is empty, whatever the
specifier clauses are (they are never consulted). -/
theorem requires_python_gate :
    (∀ (pv : PyVersion) (rels : List (String × PackageRelease)) (possible : List String),
        candidateFilter pv rels = .ok possible →
        ∀ k, k ∈ possible ↔ ∃ rel, (k, rel) ∈ rels ∧ releaseQualifies pv rel)
    ∧ (∀ (package : Package) (specs : List Specifier) (pv : PyVersion),
        candidateFilter pv package.releases = .ok [] →
        find_compatible_version package specs pv =
          .error (.incompatibleRuntime package.name)) := by
  refine ⟨candidateFilter_mem, ?_⟩
  intro package specs pv h
  unfold find_compatible_version
  rw [h, exceptBindOk]
  rfl

/-- A package whose single release declares `requires-python >= 3.7`. -/
def needs37 : Package :=
  ⟨"needs37", [("1.0", ⟨"1.0", [⟨.sdist, "u", none, some ">=3.7"⟩], none⟩)]⟩

theorem requires_python_gate_witness :
    find_compatible_version needs37 [] pv36 = .error (.incompatibleRuntime "needs37") :=
  requires_python_gate.2 needs37 [] pv36 (by decide)

theorem find_cv_incompatible (package : Package) (specs : List Specifier) (pv : PyVersion)
    (h : candidateFilter pv package.releases = .ok []) :
    find_compatible_version package specs pv = .error (.incompatibleRuntime package.name) := by
  unfold find_compatible_version
  rw [h, exceptBindOk]
  rfl

theorem find_cv_noMatching (package : Package) (specs : List Specifier) (pv : PyVersion)
    (possible : List String)
    (h1 : candidateFilter pv package.releases = .ok possible) (hne : possible ≠ [])
    (h2 : specSetFilter specs possible = .ok []) :
    find_compatible_version package specs pv = .error (.noMatchingVersion package.name) := by
  unfold find_compatible_version
  rw [h1, exceptBindOk]
  cases possible with
  | nil => exact absurd rfl hne
  | cons p ps =>
      simp only [List.isEmpty_cons, Bool.false_eq_true, if_false]
      rw [h2, exceptBindOk]
      rfl

theorem parseAll_forward :
    ∀ (items : List String) (parsed : List (List Char × PyVersion)),
      parseAll items = .ok parsed →
      ∀ p ∈ parsed, String.mk p.1 ∈ items ∧ parseVersionChars p.1 = some p.2 := by
  intro items
  induction items with
  | nil =>
      intro parsed h p hp
      simp [parseAll] at h
      subst h
      simp at hp
  | cons s rest ih =>
      intro parsed h p hp
      rw [parseAll] at h
      cases hpv : parseVersionChars s.toList with
      | none => rw [hpv] at h; cases h
      | some v =>
          simp only [hpv] at h
          cases hrec : parseAll rest with
          | error e => rw [hrec, exceptBindErr] at h; cases h
          | ok tail =>
              rw [hrec, exceptBindOk] at h
              cases h
              rcases List.mem_cons.mp hp with rfl | hpt
              · constructor
                · cases s
                  exact List.mem_cons_self _ _
                · exact hpv
              · rcases ih tail hrec p hpt with ⟨hm, hpp⟩
                exact ⟨List.mem_cons_of_mem _ hm, hpp⟩

theorem parseAll_backward :
    ∀ (items : List String) (parsed : List (List Char × PyVersion)),
      parseAll items = .ok parsed →
      ∀ s ∈ items, ∃ v, parseVersionChars s.toList = some v ∧ (s.toList, v) ∈ parsed := by
  intro items
  induction items with
  | nil =>
      intro parsed h s hs
      simp at hs
  | cons s0 rest ih =>
      intro parsed h s hs
      rw [parseAll] at h
      cases hpv : parseVersionChars s0.toList with
      | none => rw [hpv] at h; cases h
      | some v =>
          simp only [hpv] at h
          cases hrec : parseAll rest with
          | error e => rw [hrec, exceptBindErr] at h; cases h
          | ok tail =>
              rw [hrec, exceptBindOk] at h
              cases h
              rcases List.mem_cons.mp hs with rfl | hst
              · exact ⟨v, hpv, List.mem_cons_self _ _⟩
              · rcases ih tail hrec s hst with ⟨v', hv', hm⟩
                exact ⟨v', hv', List.mem_cons_of_mem _ hm⟩

theorem specFilter_subset (sp : Specifier) (pre : Bool)
    (items : List (List Char × PyVersion)) (p : List Char × PyVersion)
    (hp : p ∈ specFilter sp pre items) :
    p ∈ items ∧ specContainsKw sp pre p.2 = true := by
  have hm : p ∈ List.filter (fun p => specContainsKw sp pre p.2) items := by
    simp only [specFilter] at hp
    split at hp
    · exact (List.mem_filter.mp hp).1
    · exact (List.mem_filter.mp hp).1
  exact ⟨(List.mem_filter.mp hm).1, (List.mem_filter.mp hm).2⟩

theorem foldl_specFilter_subset (pre : Bool) :
    ∀ (specs : List Specifier) (acc : List (List Char × PyVersion)) (p : List Char × PyVersion),
      p ∈ specs.foldl (fun acc sp => specFilter sp pre acc) acc → p ∈ acc := by
  intro specs
  induction specs with
  | nil => intro acc p hp; exact hp
  | cons sp rest ih =>
      intro acc p hp
      rw [List.foldl_cons] at hp
      exact (specFilter_subset sp pre acc p (ih _ p hp)).1

theorem foldl_specFilter_head (pre : Bool) (sp : Specifier) (rest : List Specifier)
    (acc : List (List Char × PyVersion)) (p : List Char × PyVersion)
    (hp : p ∈ (sp :: rest).foldl (fun acc sp => specFilter sp pre acc) acc) :
    specContainsKw sp pre p.2 = true ∧ p ∈ acc := by
  rw [List.foldl_cons] at hp
  have h1 := foldl_specFilter_subset pre rest _ p hp
  have h2 := specFilter_subset sp pre acc p h1
  exact ⟨h2.2, h2.1⟩

/-- C4 counterexample: on a package whose only release is the pre-release
`1.0a1`, selection with the *empty* specifier set returns the pre-release even
though no clause carries a pre-release operand (there are no clauses at all):
`SpecifierSet.filter` falls back to pre-releases when no final release
exists. -/
theorem prerelease_fallback_counterexample :
    find_compatible_version prePackage [] pv36 = .ok "1.0a1"
    ∧ (parseVersion "1.0a1").map PyVersion.isPrerelease = some true
    ∧ ([] : List Specifier).any specPrereleases = false :=
  ⟨by decide, by decide, by decide⟩

/-- C4 amended: a pre-release can be returned only when some specifier clause
has a pre-release operand, or when the specifier set is empty and every
runtime-compatible release is itself a pre-release (the filter's fallback);
in particular, whenever a clause with a non-pre-release operand is applied
and no clause requests pre-releases, pre-releases are dropped before
narrowing. -/
theorem prerelease_selection_amended :
    ∀ (package : Package) (specs : List Specifier) (pv : PyVersion)
      (possible narrowed : List String) (r : String) (vr : PyVersion),
      candidateFilter pv package.releases = .ok possible →
      specSetFilter specs possible = .ok narrowed →
      find_compatible_version package specs pv = .ok r →
      parseVersion r = some vr →
      vr.isPrerelease = true →
      specs.any specPrereleases = true
      ∨ (specs = [] ∧ ∀ c ∈ possible, ∀ vc, parseVersionChars c.toList = some vc →
            vc.isPrerelease = true) := by
  intro package specs pv possible narrowed r vr h1 h2 hfind hpr hpre
  have hposne : possible ≠ [] := by
    intro he
    subst he
    rw [find_cv_incompatible package specs pv h1] at hfind
    cases hfind
  have hnne : narrowed ≠ [] := by
    intro he
    subst he
    rw [find_cv_noMatching package specs pv possible h1 hposne h2] at hfind
    cases hfind
  have heval := find_cv_eval package specs pv possible narrowed h1 h2 hnne
  rw [heval] at hfind
  have hr : r = (List.insertionSort strVerLe narrowed).getLastD "" := by
    cases hfind
    rfl
  have hrmem : r ∈ narrowed := hr ▸ sort_getLastD_mem narrowed hnne
  -- open up the filter
  unfold specSetFilter at h2
  cases hpa : parseAll possible with
  | error e => rw [hpa, exceptBindErr] at h2; cases h2
  | ok parsed =>
      rw [hpa, exceptBindOk] at h2
      cases specs with
      | nil =>
          simp only [List.isEmpty_nil, if_true] at h2
          by_cases hnp : (parsed.filter (fun p => !p.2.isPrerelease)).isEmpty = true
          · -- fallback: every parsed candidate is a pre-release
            right
            refine ⟨rfl, ?_⟩
            intro c hc vc hvc
            rcases parseAll_backward possible parsed hpa c hc with ⟨v, hv, hm⟩
            have hvc' : vc = v := by
              rw [hv] at hvc
              cases hvc
              rfl
            subst hvc'
            have hall := List.isEmpty_iff.mp hnp
            have := List.filter_eq_nil_iff.mp hall
            have hnot := this _ hm
            simpa using hnot
          · -- no fallback: the result cannot be a pre-release, contradiction
            exfalso
            rw [if_neg hnp] at h2
            cases h2
            rcases List.mem_map.mp hrmem with ⟨p, hpmem, hpk⟩
            have hpfil := List.mem_filter.mp hpmem
            have hparse := (parseAll_forward possible parsed hpa p hpfil.1).2
            have hrl : r.toList = p.1 := by
              rw [← hpk]
              rfl
            have : vr = p.2 := by
              have : parseVersionChars r.toList = some p.2 := by rw [hrl]; exact hparse
              rw [parseVersion] at hpr
              rw [this] at hpr
              cases hpr
              rfl
            subst this
            rw [hpre] at hpfil
            simp at hpfil
      | cons sp rest =>
          simp only [List.isEmpty_cons, Bool.false_eq_true, if_false] at h2
          by_cases hany : (sp :: rest).any specPrereleases = true
          · exact Or.inl hany
          · exfalso
            have hprefalse : (sp :: rest).any specPrereleases = false :=
              Bool.not_eq_true _ ▸ (by simpa using hany)
            rw [hprefalse] at h2
            cases h2
            rcases List.mem_map.mp hrmem with ⟨p, hpmem, hpk⟩
            have hhead := foldl_specFilter_head false sp rest parsed p hpmem
            have hparse := (parseAll_forward possible parsed hpa p (hhead.2)).2
            have hrl : r.toList = p.1 := by
              rw [← hpk]
              rfl
            have hvp : vr = p.2 := by
              have hx : parseVersionChars r.toList = some p.2 := by rw [hrl]; exact hparse
              rw [parseVersion, hx] at hpr
              cases hpr
              rfl
            subst hvp
            have := hhead.1
            rw [specContainsKw, hpre] at this
            simp at this

theorem prerelease_selection_amended_witness :
    ([] : List Specifier).any specPrereleases = true
    ∨ (([] : List Specifier) = [] ∧ ∀ c ∈ ["1.0a1"], ∀ vc,
        parseVersionChars c.toList = some vc → vc.isPrerelease = true) :=
  prerelease_selection_amended prePackage [] pv36 ["1.0a1"] ["1.0a1"] "1.0a1"
    ⟨0, [1, 0], some (0, 1), none, none⟩ (by decide) (by decide) (by decide)
    (by decide) (by decide)

/-- C9 counterexample: `===` is not among `<,>,<=,>=,==,!=,~=`, yet the clause
`===1.0` parses (packaging's arbitrary-equality operator) and version
selection succeeds instead of failing. -/
theorem unsupported_operator_counterexample :
    parseSpecifierSet "===1.0".toList = .ok [⟨.arbitrary, "1.0".toList⟩]
    ∧ find_compatible_version fooPackage [⟨.arbitrary, "1.0".toList⟩] pv36 = .ok "1.0" :=
  ⟨by decide, by decide⟩

/-- C9 amended: the recognised operators are the eight of `opTable`
(`===`, `==`, `~=`, `!=`, `<=`, `>=`, `<`, `>`); a clause whose text starts
with none of them fails with the `InvalidSpecifier` error, and it does so
already while the requirement is being parsed, before version selection — as
the concrete clause `$1.0` shows. -/
theorem unsupported_operator_amended :
    (∀ s : List Char, findOp opTable (pyStrip s) = none →
        parseSpecifier s = .error (.invalidSpecifier (String.mk s)))
    ∧ parse_constraints "foo ($1.0)" = .error (.invalidSpecifier "$1.0") := by
  refine ⟨?_, by decide⟩
  intro s h
  unfold parseSpecifier
  simp only [h]

theorem unsupported_operator_amended_witness :
    parseSpecifier "$1.0".toList = .error (.invalidSpecifier "$1.0") :=
  unsupported_operator_amended.1 "$1.0".toList (by decide)

/-- C7 counterexample: the combined header `[x:m]` renders its marker with
*single* quotes (Python `repr`), `(m) and extra == 'x'`, not with the double
quotes the claim states. -/
theorem convert_sdist_requires_counterexample :
    convert_sdist_requires "[x:m]\na\n" = ["a; (m) and extra == 'x'"]
    ∧ ("a; (m) and extra == 'x'" : String) ≠ "a; (m) and extra == \"x\"" :=
  ⟨by decide, by decide⟩

theorem convertLines_length :
    ∀ (lines : List (List Char)) (cm : Option (List Char)),
      (convertLines cm lines).length =
        (((lines.map pyStrip)).filter
          (fun l => !l.isEmpty && !isHeaderLine l)).length := by
  intro lines
  induction lines with
  | nil => intro cm; rfl
  | cons line rest ih =>
      intro cm
      simp only [convertLines]
      by_cases h1 : (pyStrip line).isEmpty = true
      · simp [h1, List.filter_cons, ih]
      · by_cases h2 : isHeaderLine (pyStrip line) = true
        · simp [h1, h2, List.filter_cons, ih]
        · cases cm with
          | none => simp [h1, h2, List.filter_cons, ih]
          | some m =>
              by_cases h3 : m.isEmpty = true
              · simp [h1, h2, h3, List.filter_cons, ih]
              · simp [h1, h2, h3, List.filter_cons, ih]

/-- C7 amended: `convert_sdist_requires` emits one requirement per non-blank,
non-header line, under the current section's marker; an extras header becomes
the synthetic marker `extra == '<name>'` and a combined `[<extra>:<marker>]`
header becomes `(<marker>) and extra == '<extra>'` — with single (Python
`repr`) quotes around the extra name; blank and header lines are never
emitted; the spec's two concrete examples hold as stated. -/
theorem convert_sdist_requires_amended :
    convert_sdist_requires "[:python_version < '3.4']\na\n" = ["a; python_version < '3.4'"]
    ∧ convert_sdist_requires "a\n" = ["a"]
    ∧ convert_sdist_requires "[x]\na\n" = ["a; extra == 'x'"]
    ∧ convert_sdist_requires "[x:m]\nb\nc\n" = ["b; (m) and extra == 'x'", "c; (m) and extra == 'x'"]
    ∧ (∀ data : String, (convert_sdist_requires data).length =
        (((splitOnCh '\n' data.toList).map pyStrip).filter
          (fun l => !l.isEmpty && !isHeaderLine l)).length) := by
  refine ⟨by decide, by decide, by decide, by decide, ?_⟩
  intro data
  unfold convert_sdist_requires
  rw [List.length_map]
  exact convertLines_length (splitOnCh '\n' data.toList) none

def bytes10 : List Nat := [0, 1, 2, 3, 4, 5, 6, 7, 8, 9]

/-- C3 counterexample: on a fully-cached 10-byte object positioned at 8,
`read(4)` is served from the tail cache although the requested range `[8, 12)`
does *not* fall entirely within it, and it returns only 2 bytes — fewer than
requested — as a plain success instead of raising `TruncatedRead` (Python
slice clamping, and no length check on the cache path). -/
theorem seekable_short_read_counterexample :
    (seekableInit bytes10).seek 8 0 = .ok { seekableInit bytes10 with pos := 8 }
    ∧ ({ seekableInit bytes10 with pos := 8 } : SeekableHttpFile).read 4 =
        .ok ({ seekableInit bytes10 with pos := 12 }, [8, 9])
    ∧ ([8, 9] : List Nat).length < 4
    ∧ ¬((8 : Int) + 4 ≤ (seekableInit bytes10).length) :=
  ⟨by decide, by decide, by decide, by decide⟩

/-- C3 amended: for `n > 0`, `read(n)` is served from the in-memory tail cache
with no I/O exactly when the read *starts* at or after the cache start
(`pos - end_cache_start ≥ 0`), regardless of where it ends — such reads can
return fewer bytes than requested without error; only the remote-request path
(read start strictly before the cached tail) checks the byte count and fails
with `TruncatedRead` on a short response. -/
theorem seekable_read_amended :
    ∀ (f : SeekableHttpFile) (n : Int), 0 < n →
      (0 ≤ f.pos - f.end_cache_start →
        f.read n = .ok ({ f with pos := f.pos + n },
          pySlice f.end_cache (f.pos - f.end_cache_start) (f.pos - f.end_cache_start + n)))
      ∧ (f.pos - f.end_cache_start < 0 → 0 ≤ f.pos → f.pos < f.length →
          (((pySlice f.content f.pos (f.pos + n)).length : Int) ≠ n →
            f.read n = .error (.truncatedRead (pySlice f.content f.pos (f.pos + n)).length n))
          ∧ (((pySlice f.content f.pos (f.pos + n)).length : Int) = n →
            f.read n = .ok ({ f with pos := f.pos + n }, pySlice f.content f.pos (f.pos + n)))) := by
  intro f n hn
  have hn1 : ¬(n = -1) := by omega
  have hn0 : ¬(n = 0) := by omega
  constructor
  · intro hc
    unfold SeekableHttpFile.read
    simp only [if_neg hn1, if_neg hn0, if_pos hc]
  · intro hc h0 hl
    have hnotc : ¬(0 ≤ f.pos - f.end_cache_start) := by omega
    have hcond : (f.pos < 0 || f.length ≤ f.pos) = false := by
      simp only [Bool.or_eq_false_iff, decide_eq_false_iff_not]
      constructor
      · omega
      · omega
    constructor
    · intro hne
      unfold SeekableHttpFile.read
      simp only [if_neg hn1, if_neg hn0, if_neg hnotc, hcond, Bool.false_eq_true, if_false,
        if_pos hne]
    · intro heq
      have hne' : ¬(((pySlice f.content f.pos (f.pos + n)).length : Int) ≠ n) := by omega
      unfold SeekableHttpFile.read
      simp only [if_neg hn1, if_neg hn0, if_neg hnotc, hcond, Bool.false_eq_true, if_false,
        if_neg hne']

/-- A mid-extraction stream state over a 10-byte object whose cached tail is
its last five bytes. -/
def tailFile : SeekableHttpFile := ⟨bytes10, 0, 10, [5, 6, 7, 8, 9], 5⟩

theorem seekable_read_amended_witness :
    tailFile.read 20 = .error (.truncatedRead 10 20) :=
  ((seekable_read_amended tailFile 20 (by decide)).2 (by decide) (by decide) (by decide)).1
    (by decide)

/-- C5 (code defect): `_do_markers_match` binds the `Extras` wrapper to the
environment key `"extras"`, but the marker variable is spelled `extra` and
resolves to the `None` of `asdict(self.markers)`; so `extra == "x"` evaluates
to `False` even when `"x"` is in the supplied extras set — the `Extras.__eq__`
membership test (last conjunct) is never reached, although making
`extra == "foo"` work is the class's whole documented purpose. -/
theorem extra_marker_ignores_extras :
    do_markers_match (walkerMarkers "3.6.0") "3.6.0" "; extra == \"x\"" ["x"] = .ok false
    ∧ markerEnv (walkerMarkers "3.6.0") "3.6.0" ["x"] "extras" = some (.extrasV ["x"])
    ∧ markerEnv (walkerMarkers "3.6.0") "3.6.0" ["x"] "extra" = some .noneV
    ∧ evalOp (.extrasV ["x"]) (.sym .eq) (.str "x".toList) = .ok true :=
  ⟨by decide, by decide, by decide, by decide⟩

theorem walkLoop_empty_queue (env : WalkEnv) (ie : Bool) :
    ∀ (fuel : Nat) (st : WalkState), st.queue = [] → walkLoop env ie fuel st = .ok st
  | 0, st, h => by rw [walkLoop, h]; rfl
  | fuel + 1, st, h => by rw [walkLoop, h]

/-- C10: `walk` never returns success without a recorded root; and whenever
the starting requirement carries a marker that evaluates false against the
environment (with no active extras), the starting pair is skipped with no
node created, the queue drains, and the final `assert self.root is not None`
fails — `walk` ends with `AssertionError` instead of returning. -/
theorem walk_root_assertion :
    (∀ (env : WalkEnv) (start : String) (ie : Bool) (fuel : Nat) (st : WalkState) (r : Nat),
        walk env start ie fuel = .ok (st, r) → st.root = some r)
    ∧ (∀ (env : WalkEnv) (start : String) (con : Constraint) (m : String) (ie : Bool) (fuel : Nat),
        parse_constraints start = .ok con →
        con.markers = some m →
        do_markers_match env.markers env.implVersion m [] = .ok false →
        walk env start ie (fuel + 1) = .error .assertionError) := by
  constructor
  · intro env start ie fuel st r h
    unfold walk at h
    cases hl : walkLoop env ie fuel (initWalkState start) with
    | error e => rw [hl, exceptBindErr] at h; cases h
    | ok st' =>
        rw [hl, exceptBindOk] at h
        cases hr : st'.root with
        | none => rw [hr] at h; cases h
        | some r' =>
            rw [hr] at h
            cases h
            exact hr
  · intro env start con m ie fuel h1 h2 h3
    have hstep : walkStep env ie ⟨[], [], [], none⟩ none start =
        .ok ⟨[], [], [], none⟩ := by
      unfold walkStep
      rw [h1, exceptBindOk]
      simp only [h2]
      rw [h3, exceptBindOk]
      rfl
    unfold walk
    rw [walkLoop]
    simp only [initWalkState]
    rw [hstep, exceptBindOk]
    rw [walkLoop_empty_queue env ie fuel _ rfl, exceptBindOk]

theorem walk_root_assertion_witness :
    walk envABC "foo ; python_version < \"2.0\"" false 5 = .error .assertionError :=
  walk_root_assertion.2 envABC "foo ; python_version < \"2.0\""
    ⟨"foo", none, [], some "; python_version < \"2.0\""⟩ "; python_version < \"2.0\"" false 4
    (by decide) (by decide) (by decide)

/-! ### Walk invariants -/

/-- The identity triple of a node, as keyed in `self.nodes`. -/
def nodeKeyOf (nd : DepNode) : String × String × Option String :=
  (nd.name, nd.version, nd.dep_extras)

/-- The table the walk builds when nodes are created in arena order:
`[(k₀, i), (k₁, i+1), ...]`. -/
def keyTable : Nat → List (String × String × Option String) →
    List ((String × String × Option String) × Nat)
  | _, [] => []
  | i, k :: ks => (k, i) :: keyTable (i + 1) ks

/-- C2's invariant: the lookup table is exactly the enumeration of the arena's
node keys, and the keys are pairwise distinct — each `(name, version, extra)`
triple owns exactly one node. -/
def tableInv (st : WalkState) : Prop :=
  st.table = keyTable 0 (st.nodes.map nodeKeyOf) ∧ (st.nodes.map nodeKeyOf).Nodup

/-- C8's invariant: between iterations, every node in the arena is already
`done` (a node is created, expanded and marked done within one iteration). -/
def allDone (st : WalkState) : Prop :=
  ∀ (i : Nat) (nd : DepNode), st.nodes[i]? = some nd → nd.done = true

theorem keyTable_append :
    ∀ (ks : List (String × String × Option String)) (i : Nat)
      (k : String × String × Option String),
      keyTable i (ks ++ [k]) = keyTable i ks ++ [(k, i + ks.length)]
  | [], i, k => by simp [keyTable]
  | k0 :: ks, i, k => by
      have ih := keyTable_append ks (i + 1) k
      have harith : i + 1 + ks.length = i + (ks.length + 1) := by omega
      simp [keyTable, ih, harith]

theorem mem_keyTable :
    ∀ (ks : List (String × String × Option String)) (i : Nat)
      (k : String × String × Option String), k ∈ ks → ∃ j, (k, j) ∈ keyTable i ks
  | [], _, _, h => absurd h (by simp)
  | k0 :: ks, i, k, h => by
      rcases List.mem_cons.mp h with rfl | h'
      · exact ⟨i, List.mem_cons_self _ _⟩
      · rcases mem_keyTable ks (i + 1) k h' with ⟨j, hj⟩
        exact ⟨j, List.mem_cons_of_mem _ hj⟩

theorem lookup_none_key_not_mem (ks : List (String × String × Option String)) (i : Nat)
    (k : String × String × Option String) (h : (keyTable i ks).lookup k = none) : k ∉ ks := by
  intro hk
  rw [List.lookup_eq_none_iff] at h
  rcases mem_keyTable ks i k hk with ⟨j, hj⟩
  have := h (k, j) hj
  simp at this

theorem map_set_same {α β : Type} (f : α → β) :
    ∀ (l : List α) (i : Nat) (a : α),
      (∀ b, l[i]? = some b → f b = f a) → (l.set i a).map f = l.map f
  | [], _, _, _ => rfl
  | x :: xs, 0, a, h => by
      show f a :: xs.map f = f x :: xs.map f
      rw [← h x (by simp)]
  | x :: xs, i + 1, a, h => by
      show f x :: (xs.set i a).map f = f x :: xs.map f
      rw [map_set_same f xs i a (fun b hb => h b (by simpa using hb))]

theorem getOrCreateNode_cases (st : WalkState) (key : String × String × Option String)
    (hs hb : Bool) :
    (∃ idx, st.table.lookup key = some idx ∧ getOrCreateNode st key hs hb = (st, idx))
    ∨ (st.table.lookup key = none ∧
        getOrCreateNode st key hs hb =
          ({ st with
              nodes := st.nodes ++ [⟨key.1, key.2.1, [], hs, hb, key.2.2, false⟩],
              table := st.table ++ [(key, st.nodes.length)] }, st.nodes.length)) := by
  unfold getOrCreateNode
  cases h : st.table.lookup key with
  | some idx => exact Or.inl ⟨idx, rfl, rfl⟩
  | none => exact Or.inr ⟨rfl, rfl⟩

theorem tableInv_create (st : WalkState) (key : String × String × Option String)
    (hs hb : Bool) (hinv : tableInv st) (hnone : st.table.lookup key = none) :
    tableInv { st with
        nodes := st.nodes ++ [⟨key.1, key.2.1, [], hs, hb, key.2.2, false⟩],
        table := st.table ++ [(key, st.nodes.length)] } := by
  have hkey : nodeKeyOf ⟨key.1, key.2.1, [], hs, hb, key.2.2, false⟩ = key := rfl
  have hnotmem : key ∉ st.nodes.map nodeKeyOf := by
    apply lookup_none_key_not_mem (st.nodes.map nodeKeyOf) 0 key
    rw [← hinv.1]
    exact hnone
  constructor
  · show st.table ++ [(key, st.nodes.length)] = _
    rw [List.map_append]
    simp only [List.map_cons, List.map_nil, hkey]
    rw [keyTable_append, hinv.1]
    simp [List.length_map]
  · show ((st.nodes ++ [_]).map nodeKeyOf).Nodup
    rw [List.map_append]
    simp only [List.map_cons, List.map_nil, hkey]
    rw [List.nodup_append]
    refine ⟨hinv.2, by simp, ?_⟩
    intro a ha hb'
    simp at hb'
    subst hb'
    exact hnotmem ha

theorem appendEdgeAt_shape (st : WalkState) (p : Nat) (e : DepEdge) :
    (appendEdgeAt st p e).table = st.table
    ∧ (appendEdgeAt st p e).queue = st.queue
    ∧ (appendEdgeAt st p e).root = st.root
    ∧ (appendEdgeAt st p e).nodes.map nodeKeyOf = st.nodes.map nodeKeyOf
    ∧ ∀ (j : Nat), ((appendEdgeAt st p e).nodes[j]?).map (fun nd => nd.done) =
        (st.nodes[j]?).map (fun nd => nd.done) := by
  unfold appendEdgeAt
  cases hp : st.nodes[p]? with
  | none => exact ⟨rfl, rfl, rfl, rfl, fun j => rfl⟩
  | some nd =>
      refine ⟨rfl, rfl, rfl, ?_, ?_⟩
      · exact map_set_same nodeKeyOf st.nodes p _ (fun b hb => by
          rw [hp] at hb; cases hb; rfl)
      · intro j
        by_cases hj : p = j
        · subst hj
          have hlt : p < st.nodes.length := (List.getElem?_eq_some_iff.mp hp).1
          rw [List.getElem?_set_self hlt, hp]
          rfl
        · rw [List.getElem?_set_ne hj]

theorem markDoneAt_shape (st : WalkState) (i : Nat) :
    (markDoneAt st i).table = st.table
    ∧ (markDoneAt st i).queue = st.queue
    ∧ (markDoneAt st i).root = st.root
    ∧ (markDoneAt st i).nodes.map nodeKeyOf = st.nodes.map nodeKeyOf := by
  unfold markDoneAt
  cases hp : st.nodes[i]? with
  | none => exact ⟨rfl, rfl, rfl, rfl⟩
  | some nd =>
      refine ⟨rfl, rfl, rfl, ?_⟩
      exact map_set_same nodeKeyOf st.nodes i _ (fun b hb => by
        rw [hp] at hb; cases hb; rfl)

theorem enqueueDeps_preserves (ie : Bool) (ce : Option String) (idx : Nat) :
    ∀ (deps : List String) (st st' : WalkState),
      enqueueDeps ie ce idx deps st = .ok st' →
      st'.nodes = st.nodes ∧ st'.table = st.table ∧ st'.root = st.root := by
  intro deps
  induction deps with
  | nil =>
      intro st st' h
      cases h
      exact ⟨rfl, rfl, rfl⟩
  | cons d rest ih =>
      intro st st' h
      rw [enqueueDeps, List.foldlM_cons] at h
      cases hpc : parse_constraints d with
      | error e => rw [hpc, exceptBindErr] at h; cases h
      | ok dep_con =>
          rw [hpc, exceptBindOk] at h
          by_cases hinc : includeDep dep_con ce ie = true
          · rw [if_pos hinc, exceptPureBind] at h
            have := ih { st with queue := st.queue ++ [(some idx, d)] } st' h
            exact this
          · rw [if_neg hinc, exceptPureBind] at h
            exact ih st st' h

theorem getOrCreateNode_spec (st : WalkState) (key : String × String × Option String)
    (hs hb : Bool) (st1 : WalkState) (idx : Nat)
    (hinv : tableInv st) (h : getOrCreateNode st key hs hb = (st1, idx)) :
    tableInv st1 ∧ st1.queue = st.queue ∧ st1.root = st.root ∧
    ∀ (j : Nat) (nd : DepNode), st1.nodes[j]? = some nd →
      st.nodes[j]? = some nd ∨ (j = idx ∧ nd.done = false) := by
  rcases getOrCreateNode_cases st key hs hb with ⟨i0, _, heq⟩ | ⟨_, heq⟩
  · rw [heq] at h
    cases h
    exact ⟨hinv, rfl, rfl, fun j nd hj => Or.inl hj⟩
  · rw [heq] at h
    cases h
    refine ⟨tableInv_create st key hs hb hinv (by assumption), rfl, rfl, ?_⟩
    intro j nd hj
    by_cases hlt : j < st.nodes.length
    · rw [List.getElem?_append_left hlt] at hj
      exact Or.inl hj
    · by_cases hjl : j = st.nodes.length
      · subst hjl
        rw [List.getElem?_concat_length] at hj
        cases hj
        exact Or.inr ⟨rfl, rfl⟩
      · rw [List.getElem?_append_right (by omega)] at hj
        rw [List.getElem?_eq_none (by simp; omega)] at hj
        cases hj

theorem recordArrival_shape (st : WalkState) (parent : Option Nat) (idx : Nat)
    (con : Constraint) :
    (recordArrival st parent idx con).table = st.table
    ∧ (recordArrival st parent idx con).queue = st.queue
    ∧ (recordArrival st parent idx con).nodes.map nodeKeyOf = st.nodes.map nodeKeyOf
    ∧ ∀ (j : Nat), ((recordArrival st parent idx con).nodes[j]?).map (fun nd => nd.done) =
        (st.nodes[j]?).map (fun nd => nd.done) := by
  cases parent with
  | none => exact ⟨rfl, rfl, rfl, fun j => rfl⟩
  | some p =>
      have hsh := appendEdgeAt_shape st p ⟨idx, renderSpecifierSet con.specifiers, con.markers⟩
      exact ⟨hsh.1, hsh.2.1, hsh.2.2.2.1, hsh.2.2.2.2⟩

theorem tableInv_of_shape (st st' : WalkState)
    (ht : st'.table = st.table) (hk : st'.nodes.map nodeKeyOf = st.nodes.map nodeKeyOf)
    (hinv : tableInv st) : tableInv st' := by
  constructor
  · rw [ht, hk]; exact hinv.1
  · rw [hk]; exact hinv.2

theorem markDoneAt_done (st : WalkState) (i : Nat) :
    ∀ (j : Nat) (nd : DepNode), (markDoneAt st i).nodes[j]? = some nd →
      (j = i ∧ nd.done = true) ∨ (j ≠ i ∧ st.nodes[j]? = some nd) := by
  intro j nd hj
  unfold markDoneAt at hj
  cases hp : st.nodes[i]? with
  | none =>
      rw [hp] at hj
      by_cases hji : j = i
      · subst hji
        rw [hj] at hp
        cases hp
      · exact Or.inr ⟨hji, hj⟩
  | some nd0 =>
      rw [hp] at hj
      by_cases hji : j = i
      · subst hji
        have hlt : j < st.nodes.length := (List.getElem?_eq_some_iff.mp hp).1
        rw [List.getElem?_set_self hlt] at hj
        cases hj
        exact Or.inl ⟨rfl, rfl⟩
      · rw [List.getElem?_set_ne (fun he => hji he.symm)] at hj
        exact Or.inr ⟨hji, hj⟩

/-- The conjunction preserved by every loop iteration: table/arena agreement
with key uniqueness, and every resident node being `done`. -/
def walkInv (st : WalkState) : Prop := tableInv st ∧ allDone st

theorem doneMap_some {l l' : List DepNode} {j : Nat} {nd : DepNode}
    (heq : ∀ (j' : Nat), (l[j']?).map (fun nd => nd.done) = (l'[j']?).map (fun nd => nd.done))
    (hj : l[j]? = some nd) : ∃ nd', l'[j]? = some nd' ∧ nd'.done = nd.done := by
  have := heq j
  rw [hj] at this
  cases hl' : l'[j]? with
  | none => rw [hl'] at this; cases this
  | some nd' =>
      rw [hl'] at this
      simp at this
      exact ⟨nd', rfl, this.symm⟩

theorem walkArrive_inv (env : WalkEnv) (ie : Bool) (st : WalkState)
    (parent : Option Nat) (con : Constraint) (package : Package) (v : String)
    (st' : WalkState) (hinv : walkInv st)
    (h : walkArrive env ie st parent con package v = .ok st') : walkInv st' := by
  unfold walkArrive at h
  split at h
  next st1 idx heq =>
    have hspec := getOrCreateNode_spec st _ _ _ st1 idx hinv.1 heq
    have hsh := recordArrival_shape st1 parent idx con
    have hinv2 : tableInv (recordArrival st1 parent idx con) :=
      tableInv_of_shape st1 (recordArrival st1 parent idx con) hsh.1 hsh.2.2.1 hspec.1
    split at h
    next hcond =>
      cases h
      refine ⟨hinv2, ?_⟩
      intro j nd hj
      rcases doneMap_some hsh.2.2.2 hj with ⟨nd1, hnd1, hde⟩
      rcases hspec.2.2.2 j nd1 hnd1 with hold | ⟨hj_idx, hfresh⟩
      · rw [← hde]
        exact hinv.2 j nd1 hold
      · exfalso
        subst hj_idx
        rw [hj] at hcond
        simp at hcond
        rw [hcond] at hde
        rw [hfresh] at hde
        cases hde
    next hcond =>
      cases hfd : fetch_single_deps env package v with
      | error e => rw [hfd, exceptBindErr] at h; cases h
      | ok deps =>
          rw [hfd, exceptBindOk] at h
          cases henq : enqueueDeps ie con.extra idx deps (recordArrival st1 parent idx con) with
          | error e => rw [henq, exceptBindErr] at h; cases h
          | ok st3 =>
              rw [henq, exceptBindOk] at h
              cases h
              have hp := enqueueDeps_preserves ie con.extra idx deps _ st3 henq
              have hinv3 : tableInv st3 :=
                tableInv_of_shape (recordArrival st1 parent idx con) st3 hp.2.1
                  (by rw [hp.1]) hinv2
              have hmk := markDoneAt_shape st3 idx
              refine ⟨tableInv_of_shape st3 (markDoneAt st3 idx) hmk.1 hmk.2.2.2 hinv3, ?_⟩
              intro j nd hj
              rcases markDoneAt_done st3 idx j nd hj with ⟨_, hdone⟩ | ⟨hne, hj3⟩
              · exact hdone
              · rw [hp.1] at hj3
                rcases doneMap_some hsh.2.2.2 hj3 with ⟨nd1, hnd1, hde⟩
                rcases hspec.2.2.2 j nd1 hnd1 with hold | ⟨hj_idx, _⟩
                · rw [← hde]
                  exact hinv.2 j nd1 hold
                · exact absurd hj_idx hne

theorem walkResolve_inv (env : WalkEnv) (ie : Bool) (st : WalkState)
    (parent : Option Nat) (con : Constraint) (st' : WalkState)
    (hinv : walkInv st) (h : walkResolve env ie st parent con = .ok st') : walkInv st' := by
  unfold walkResolve at h
  cases hidx : env.index con.name with
  | error e => rw [hidx, exceptBindErr] at h; cases h
  | ok package =>
      rw [hidx, exceptBindOk] at h
      cases hfind : find_compatible_version package con.specifiers env.pythonVersion with
      | error e => rw [hfind, exceptBindErr] at h; cases h
      | ok v =>
          rw [hfind, exceptBindOk] at h
          exact walkArrive_inv env ie st parent con package v st' hinv h

theorem walkStep_inv (env : WalkEnv) (ie : Bool) (st : WalkState)
    (parent : Option Nat) (item : String) (st' : WalkState)
    (hinv : walkInv st) (h : walkStep env ie st parent item = .ok st') : walkInv st' := by
  unfold walkStep at h
  cases hpc : parse_constraints item with
  | error e => rw [hpc, exceptBindErr] at h; cases h
  | ok con =>
      rw [hpc, exceptBindOk] at h
      cases hm : con.markers with
      | none =>
          rw [hm] at h
          exact walkResolve_inv env ie st parent con st' hinv h
      | some m =>
          simp only [hm] at h
          cases hdm : do_markers_match env.markers env.implVersion m [] with
          | error e => rw [hdm, exceptBindErr] at h; cases h
          | ok b =>
              rw [hdm, exceptBindOk] at h
              cases b with
              | false =>
                  simp only [Bool.not_false, if_true] at h
                  cases h
                  exact hinv
              | true =>
                  simp only [Bool.not_true, Bool.false_eq_true, if_false] at h
                  exact walkResolve_inv env ie st parent con st' hinv h

theorem walkInv_queue (st : WalkState) (q : List (Option Nat × String))
    (hinv : walkInv st) : walkInv { st with queue := q } := by
  exact ⟨⟨hinv.1.1, hinv.1.2⟩, fun i nd h => hinv.2 i nd h⟩

theorem walkLoop_inv (env : WalkEnv) (ie : Bool) :
    ∀ (fuel : Nat) (st st' : WalkState),
      walkInv st → walkLoop env ie fuel st = .ok st' → walkInv st'
  | 0, st, st', hP, h => by
      rw [walkLoop] at h
      split at h
      · cases h; exact hP
      · cases h
  | fuel + 1, st, st', hP, h => by
      rw [walkLoop] at h
      cases hqm : st.queue with
      | nil => rw [hqm] at h; cases h; exact hP
      | cons pi rest =>
          obtain ⟨parent, item⟩ := pi
          simp only [hqm] at h
          cases hs : walkStep env ie { st with queue := rest } parent item with
          | error e => rw [hs, exceptBindErr] at h; cases h
          | ok st1 =>
              rw [hs, exceptBindOk] at h
              exact walkLoop_inv env ie fuel st1 st'
                (walkStep_inv env ie _ parent item st1 (walkInv_queue st rest hP) hs) h

/-- C2: throughout every walk the node lookup table maps each distinct
`(name, version, extra)` triple to exactly one node: it holds at the start,
is preserved by every iteration and by the whole loop, and under it two arena
slots holding the same identity triple are the same slot — so the edges any
two parents obtain for the same triple reference the one shared node. -/
theorem walk_node_table_unique :
    (∀ start : String, tableInv (initWalkState start))
    ∧ (∀ (env : WalkEnv) (ie : Bool) (st : WalkState) (parent : Option Nat) (item : String)
        (st' : WalkState), walkInv st → walkStep env ie st parent item = .ok st' → tableInv st')
    ∧ (∀ (env : WalkEnv) (ie : Bool) (fuel : Nat) (st st' : WalkState),
        walkInv st → walkLoop env ie fuel st = .ok st' → tableInv st')
    ∧ (∀ st : WalkState, tableInv st →
        ∀ (i j : Nat) (ni nj : DepNode), st.nodes[i]? = some ni → st.nodes[j]? = some nj →
          nodeKeyOf ni = nodeKeyOf nj → i = j) := by
  refine ⟨?_, ?_, ?_, ?_⟩
  · intro start
    exact ⟨rfl, List.nodup_nil⟩
  · intro env ie st parent item st' hinv h
    exact (walkStep_inv env ie st parent item st' hinv h).1
  · intro env ie fuel st st' hinv h
    exact (walkLoop_inv env ie fuel st st' hinv h).1
  · intro st hinv i j ni nj hi hj hk
    have hilt : i < st.nodes.length := (List.getElem?_eq_some_iff.mp hi).1
    have hjlt : j < st.nodes.length := (List.getElem?_eq_some_iff.mp hj).1
    have hmap := List.nodup_iff_getElem?_ne_getElem?.mp hinv.2
    have hki : (st.nodes.map nodeKeyOf)[i]? = some (nodeKeyOf ni) := by
      rw [List.getElem?_map, hi]
      rfl
    have hkj : (st.nodes.map nodeKeyOf)[j]? = some (nodeKeyOf nj) := by
      rw [List.getElem?_map, hj]
      rfl
    by_contra hne
    rcases Nat.lt_or_ge i j with hij | hij
    · exact hmap i j hij (by rw [List.length_map]; exact hjlt) (by rw [hki, hkj, hk])
    · have hij' : j < i := by omega
      exact hmap j i hij' (by rw [List.length_map]; exact hilt) (by rw [hki, hkj, hk.symm])

/-- The final state of walking the mocked `a → b (==1.0) → c` graph of the
repository's own `DepWalkerTest`. -/
def abcFinal : WalkState :=
  { nodes := [⟨"a", "1.0", [⟨1, "==1.0", none⟩], false, false, none, true⟩,
              ⟨"b", "1.0", [⟨2, "", none⟩], false, false, none, true⟩,
              ⟨"c", "1.0", [], false, false, none, true⟩],
    table := [(("a", "1.0", none), 0), (("b", "1.0", none), 1), (("c", "1.0", none), 2)],
    queue := [], root := some 0 }

theorem walk_node_table_unique_witness : tableInv abcFinal :=
  walk_node_table_unique.2.2.1 envABC false 10 (initWalkState "a") abcFinal
    ⟨⟨by decide, by decide⟩, fun i nd h => by simp [initWalkState] at h⟩ (by decide)

/-- State after the first iteration of walking `a`: the root node is done,
its `deps` list still empty, the child requirement only queued. -/
def abcMid : WalkState :=
  { nodes := [⟨"a", "1.0", [], false, false, none, true⟩],
    table := [(("a", "1.0", none), 0)],
    queue := [(some 0, "b (==1.0)")], root := some 0 }

/-- State after the second iteration: the edge `a → b` has been appended to
the root's `deps` — after the root was marked done. -/
def abcMid2 : WalkState :=
  { nodes := [⟨"a", "1.0", [⟨1, "==1.0", none⟩], false, false, none, true⟩,
              ⟨"b", "1.0", [], false, false, none, true⟩],
    table := [(("a", "1.0", none), 0), (("b", "1.0", none), 1)],
    queue := [(some 1, "c")], root := some 0 }

/-- C8 counterexample: after its own expansion the node `a` is `done` with an
*empty* `deps` list (`abcMid`); dequeuing the child pair then appends the edge
to `a`'s `deps` (`abcMid2`) — an edge added to a node after it was marked
done, contradicting the claim's "no edge is added after done". -/
theorem deps_after_done_counterexample :
    walkStep envABC false ⟨[], [], [], none⟩ none "a" = .ok abcMid
    ∧ (abcMid.nodes[0]?).map (fun nd => (nd.done, nd.deps.length)) = some (true, 0)
    ∧ walkStep envABC false { abcMid with queue := [] } (some 0) "b (==1.0)" = .ok abcMid2
    ∧ (abcMid2.nodes[0]?).map (fun nd => (nd.done, nd.deps.length)) = some (true, 1) :=
  ⟨by decide, by decide, by decide, by decide⟩

theorem getOrCreateNode_old (st : WalkState) (key : String × String × Option String)
    (hs hb : Bool) (st1 : WalkState) (idx : Nat)
    (h : getOrCreateNode st key hs hb = (st1, idx)) :
    ∀ (j : Nat) (nd : DepNode), st.nodes[j]? = some nd → st1.nodes[j]? = some nd := by
  intro j nd hj
  rcases getOrCreateNode_cases st key hs hb with ⟨i0, _, heq⟩ | ⟨_, heq⟩
  · rw [heq] at h
    cases h
    exact hj
  · rw [heq] at h
    cases h
    have hlt : j < st.nodes.length := (List.getElem?_eq_some_iff.mp hj).1
    show (st.nodes ++ [_])[j]? = some nd
    rw [List.getElem?_append_left hlt]
    exact hj

theorem appendEdgeAt_ne (st : WalkState) (p : Nat) (e : DepEdge) (j : Nat) (hj : j ≠ p) :
    (appendEdgeAt st p e).nodes[j]? = st.nodes[j]? := by
  unfold appendEdgeAt
  cases hp : st.nodes[p]? with
  | none => rfl
  | some nd => exact List.getElem?_set_ne (fun he => hj he.symm)

theorem markDoneAt_deps (st : WalkState) (i : Nat) :
    ∀ (j : Nat), ((markDoneAt st i).nodes[j]?).map (fun nd => nd.deps) =
      (st.nodes[j]?).map (fun nd => nd.deps) := by
  intro j
  unfold markDoneAt
  cases hp : st.nodes[i]? with
  | none => rfl
  | some nd =>
      by_cases hji : i = j
      · subst hji
        have hlt : i < st.nodes.length := (List.getElem?_eq_some_iff.mp hp).1
        rw [List.getElem?_set_self hlt, hp]
        rfl
      · rw [List.getElem?_set_ne hji]

theorem recordArrival_ne (st : WalkState) (parent : Option Nat) (idx : Nat)
    (con : Constraint) (i : Nat) (hi : parent ≠ some i) :
    (recordArrival st parent idx con).nodes[i]? = st.nodes[i]? := by
  cases parent with
  | none => rfl
  | some p =>
      exact appendEdgeAt_ne st p _ i (fun he => hi (by rw [he]))

theorem walkArrive_deps_ne (env : WalkEnv) (ie : Bool) (st : WalkState)
    (parent : Option Nat) (con : Constraint) (package : Package) (v : String)
    (st' : WalkState) (h : walkArrive env ie st parent con package v = .ok st')
    (i : Nat) (nd nd' : DepNode) (hpi : parent ≠ some i)
    (hj : st.nodes[i]? = some nd) (hj' : st'.nodes[i]? = some nd') : nd'.deps = nd.deps := by
  unfold walkArrive at h
  split at h
  next st1 idx heq =>
    have hold : st1.nodes[i]? = some nd := getOrCreateNode_old st _ _ _ st1 idx heq i nd hj
    have hrec : (recordArrival st1 parent idx con).nodes[i]? = st1.nodes[i]? :=
      recordArrival_ne st1 parent idx con i hpi
    split at h
    next hcond =>
      cases h
      rw [hrec, hold] at hj'
      cases hj'
      rfl
    next hcond =>
      cases hfd : fetch_single_deps env package v with
      | error e => rw [hfd, exceptBindErr] at h; cases h
      | ok deps =>
          rw [hfd, exceptBindOk] at h
          cases henq : enqueueDeps ie con.extra idx deps (recordArrival st1 parent idx con) with
          | error e => rw [henq, exceptBindErr] at h; cases h
          | ok st3 =>
              rw [henq, exceptBindOk] at h
              cases h
              have hp := enqueueDeps_preserves ie con.extra idx deps _ st3 henq
              have hmd := markDoneAt_deps st3 idx i
              rw [hj', hp.1, hrec, hold] at hmd
              simp at hmd
              exact hmd

theorem walkResolve_deps_ne (env : WalkEnv) (ie : Bool) (st : WalkState)
    (parent : Option Nat) (con : Constraint) (st' : WalkState)
    (h : walkResolve env ie st parent con = .ok st')
    (i : Nat) (nd nd' : DepNode) (hpi : parent ≠ some i)
    (hj : st.nodes[i]? = some nd) (hj' : st'.nodes[i]? = some nd') : nd'.deps = nd.deps := by
  unfold walkResolve at h
  cases hidx : env.index con.name with
  | error e => rw [hidx, exceptBindErr] at h; cases h
  | ok package =>
      rw [hidx, exceptBindOk] at h
      cases hfind : find_compatible_version package con.specifiers env.pythonVersion with
      | error e => rw [hfind, exceptBindErr] at h; cases h
      | ok v =>
          rw [hfind, exceptBindOk] at h
          exact walkArrive_deps_ne env ie st parent con package v st' h i nd nd' hpi hj hj'

/-- C8 amended: in the code a node's `deps` list is *not* populated in the
iteration that marks it done — each edge is appended to the dequeued parent's
`deps` in the later iteration that dequeues the child pair, at which point the
parent is already done. The correct invariants are: (1) the arena starts with
no nodes; (2,3) between iterations every resident node is already `done`
(preserved by every step and by the loop), so every edge append targets an
already-done node; and (4) an iteration dequeued with parent `p` never changes
the `deps` list of any node other than `p` — in particular the edge's *target*
node's `deps` is untouched, which is the one part of the claim the code
satisfies. -/
theorem deps_population_amended :
    (∀ start : String, allDone (initWalkState start))
    ∧ (∀ (env : WalkEnv) (ie : Bool) (st : WalkState) (parent : Option Nat) (item : String)
        (st' : WalkState), walkInv st → walkStep env ie st parent item = .ok st' → allDone st')
    ∧ (∀ (env : WalkEnv) (ie : Bool) (fuel : Nat) (st st' : WalkState),
        walkInv st → walkLoop env ie fuel st = .ok st' → allDone st')
    ∧ (∀ (env : WalkEnv) (ie : Bool) (st : WalkState) (parent : Option Nat) (item : String)
        (st' : WalkState), walkStep env ie st parent item = .ok st' →
        ∀ (i : Nat) (nd nd' : DepNode), parent ≠ some i →
          st.nodes[i]? = some nd → st'.nodes[i]? = some nd' → nd'.deps = nd.deps) := by
  refine ⟨?_, ?_, ?_, ?_⟩
  · intro start i nd h
    simp [initWalkState] at h
  · intro env ie st parent item st' hinv h
    exact (walkStep_inv env ie st parent item st' hinv h).2
  · intro env ie fuel st st' hinv h
    exact (walkLoop_inv env ie fuel st st' hinv h).2
  · intro env ie st parent item st' h i nd nd' hpi hj hj'
    unfold walkStep at h
    cases hpc : parse_constraints item with
    | error e => rw [hpc, exceptBindErr] at h; cases h
    | ok con =>
        rw [hpc, exceptBindOk] at h
        cases hm : con.markers with
        | none =>
            rw [hm] at h
            exact walkResolve_deps_ne env ie st parent con st' h i nd nd' hpi hj hj'
        | some m =>
            simp only [hm] at h
            cases hdm : do_markers_match env.markers env.implVersion m [] with
            | error e => rw [hdm, exceptBindErr] at h; cases h
            | ok b =>
                rw [hdm, exceptBindOk] at h
                cases b with
                | false =>
                    simp only [Bool.not_false, if_true] at h
                    cases h
                    rw [hj] at hj'
                    cases hj'
                    rfl
                | true =>
                    simp only [Bool.not_true, Bool.false_eq_true, if_false] at h
                    exact walkResolve_deps_ne env ie st parent con st' h i nd nd' hpi hj hj'

theorem deps_population_amended_witness : allDone abcFinal :=
  deps_population_amended.2.2.1 envABC false 10 (initWalkState "a") abcFinal
    ⟨⟨by decide, by decide⟩, fun i nd h => by simp [initWalkState] at h⟩ (by decide)
